import Mathlib

/-!
Verification development for the reactive `Memo` subsystem
(`leptos_reactive/src/memo.rs`) of a fine-grained reactive runtime.

The surrounding runtime (node arena, propagation driver, scopes, effects,
stream channels) is not part of the excerpted source; those pieces are
modelled from the specification text, and each such definition is marked
`Modelled from the spec:`.  Definitions translated from `memo.rs` itself
say so in their doc comments.
-/

set_option autoImplicit false

namespace Reactive

/-- Stable index of a node in the runtime arena. -/
abbrev NodeId := Nat

/-- Stable index of a scope. -/
abbrev ScopeId := Nat

/-- Stable index of a stream channel. -/
abbrev ChannelId := Nat

/-- A reactive computation body: a tree of reads ending in a returned
value.  `read` models a tracked `.get()` on another node (it registers a
dependency edge), `readUntracked` models `.get_untracked()` (no edge). -/
inductive Comp (V : Type) where
  | ret (v : V)
  | read (src : NodeId) (k : V → Comp V)
  | readUntracked (src : NodeId) (k : V → Comp V)

/-- Modelled from the spec: a Signal node holds a current value. -/
structure SignalNode (V : Type) where
  value : V

/-- Modelled from the spec: a Memo node holds a computation closure
`fn(previous: Option<&T>) -> T`, the last computed value (always present
after construction), and its current source edges. -/
structure MemoNode (V : Type) where
  compute : Option V → Comp V
  value : Option V
  sources : List NodeId

/-- Modelled from the spec: an Effect node holds a closure run for side
effects, its own previous return value, its source edges, and (for the
stream adapter) an optional channel its result is sent to. -/
structure EffectNode (V : Type) where
  body : Option V → Comp V
  prev : Option V
  sources : List NodeId
  sendTo : Option ChannelId

/-- Modelled from the spec: `Node` is a tagged union over
Signal / Memo / Effect. -/
inductive Node (V : Type) where
  | sig (s : SignalNode V)
  | memo (m : MemoNode V)
  | eff (e : EffectNode V)

/-- Modelled from the spec: arena entry: the node payload, its subscriber
edges, and its owning scope (which never changes). -/
structure NodeEntry (V : Type) where
  node : Node V
  subscribers : List NodeId
  owner : ScopeId

/-- An mpsc channel as used by the stream adapter: a buffer of values
already sent and a closed flag. -/
structure Channel (V : Type) where
  buffer : List V
  closed : Bool

/-- A cleanup callback registered on a scope: either close a stream
channel (as registered by `to_stream`) or an observable marker. -/
inductive CleanupAct where
  | closeChannel (ch : ChannelId)
  | mark (k : Nat)
deriving DecidableEq

/-- Modelled from the spec: a scope has at most one parent, an ordered
cleanup list, a disposed flag, and child scopes. -/
structure ScopeEntry where
  parent : Option ScopeId
  cleanups : List CleanupAct
  disposed : Bool
  children : List ScopeId

/-- Modelled from the spec: the runtime owns the node arena, the scope
tree, the stream channels, and (for observability in proofs) a log of
node runs and of executed cleanup markers. -/
structure Runtime (V : Type) where
  nodes : List (NodeEntry V)
  scopes : List ScopeEntry
  channels : List (Channel V)
  runLog : List NodeId
  cleanupLog : List Nat

variable {V : Type}

/-- Whether a scope exists and has not been disposed. -/
def scopeLive (rt : Runtime V) (sc : ScopeId) : Bool :=
  match rt.scopes[sc]? with
  | some s => !s.disposed
  | none => false

/-- The node payload stored at an arena index. -/
def nodePayload (rt : Runtime V) (i : NodeId) : Option (Node V) :=
  (rt.nodes[i]?).map (fun e => e.node)

/-- The owning scope recorded at an arena index. -/
def nodeOwner (rt : Runtime V) (i : NodeId) : Option ScopeId :=
  (rt.nodes[i]?).map (fun e => e.owner)

/-- Whether a node exists and its owning scope has not been disposed. -/
def nodeLive (rt : Runtime V) (i : NodeId) : Bool :=
  match nodeOwner rt i with
  | some o => scopeLive rt o
  | none => false

/-- The subscriber edges of a node (empty for an absent index). -/
def subsOf (rt : Runtime V) (i : NodeId) : List NodeId :=
  match rt.nodes[i]? with
  | some e => e.subscribers
  | none => []

/-- The cached value seen by a read occurring inside a computation:
a Signal yields its value, a Memo yields its cached value. -/
def valueOf [Inhabited V] (rt : Runtime V) (i : NodeId) : V :=
  match nodePayload rt i with
  | some (.sig s) => s.value
  | some (.memo m) => m.value.getD default
  | _ => default

/-- Run a computation body against the runtime, returning its result and
the list of tracked reads (in order).  Untracked reads contribute no
entry to the read list. -/
def evalComp [Inhabited V] (rt : Runtime V) : Comp V → V × List NodeId
  | .ret v => (v, [])
  | .read src k =>
    let r := evalComp rt (k (valueOf rt src))
    (r.1, src :: r.2)
  | .readUntracked src k => evalComp rt (k (valueOf rt src))

/-- Replace the subscriber list of node `s` by `g` applied to it. -/
def modifySubs (rt : Runtime V) (s : NodeId) (g : List NodeId → List NodeId) :
    Runtime V :=
  match rt.nodes[s]? with
  | some e =>
    { rt with nodes := rt.nodes.set s { e with subscribers := g e.subscribers } }
  | none => rt

/-- Modelled from the spec: remove node `j` from the subscribers of `s`
(used to drop stale edges before re-evaluating `j`). -/
def removeSub (j : NodeId) (rt : Runtime V) (s : NodeId) : Runtime V :=
  modifySubs rt s (fun l => l.filter (fun x => x != j))

/-- Modelled from the spec: register node `j` as a subscriber of `s`
(used when `j` performs a tracked read of `s`). -/
def addSub (j : NodeId) (rt : Runtime V) (s : NodeId) : Runtime V :=
  modifySubs rt s (fun l => if j ∈ l then l else l ++ [j])

/-- Update the value and source set of the memo stored at `i`. -/
def setMemoVS (rt : Runtime V) (i : NodeId) (v : Option V) (srcs : List NodeId) :
    Runtime V :=
  match rt.nodes[i]? with
  | some e =>
    match e.node with
    | .memo m =>
      { rt with nodes :=
          rt.nodes.set i { e with node := .memo { m with value := v, sources := srcs } } }
    | _ => rt
  | none => rt

/-- Update the previous value and source set of the effect stored at `i`. -/
def setEffPS (rt : Runtime V) (i : NodeId) (p : Option V) (srcs : List NodeId) :
    Runtime V :=
  match rt.nodes[i]? with
  | some e =>
    match e.node with
    | .eff ef =>
      { rt with nodes :=
          rt.nodes.set i { e with node := .eff { ef with prev := p, sources := srcs } } }
    | _ => rt
  | none => rt

/-- Append a node id to the run log. -/
def addRun (rt : Runtime V) (i : NodeId) : Runtime V :=
  { rt with runLog := rt.runLog ++ [i] }

/-- Send a value on a channel.  A send on a closed (or absent) channel is
silently dropped, as the sender's result is discarded. -/
def chanSend (rt : Runtime V) (ch : ChannelId) (v : V) : Runtime V :=
  match rt.channels[ch]? with
  | some c =>
    if c.closed then rt
    else { rt with channels := rt.channels.set ch { c with buffer := c.buffer ++ [v] } }
  | none => rt

/-- Modelled from the spec: evaluate one node during propagation.
A live Memo drops its stale source edges, recomputes with the previous
value as argument, rediscovers its source set from the tracked reads,
and compares the new value to the cached one with the equality
predicate: if equal its subscribers are not notified and the stored
value is kept, otherwise the value is replaced and its subscribers are
returned for notification.  A live Effect reruns in full the same way
(forwarding its result to its channel if it has one) and notifies
nobody.  Disposed or absent nodes do nothing. -/
def runNode [Inhabited V] [DecidableEq V] (rt : Runtime V) (i : NodeId) :
    Runtime V × List NodeId :=
  if nodeLive rt i then
    match nodePayload rt i with
    | some (.memo m) =>
      let rt1 := m.sources.foldl (removeSub i) rt
      let res := evalComp rt1 (m.compute m.value)
      let rt2 := res.2.foldl (addSub i) rt1
      let rt3 := setMemoVS rt2 i (if m.value = some res.1 then m.value else some res.1) res.2
      (addRun rt3 i, if m.value = some res.1 then [] else subsOf rt2 i)
    | some (.eff ef) =>
      let rt1 := ef.sources.foldl (removeSub i) rt
      let res := evalComp rt1 (ef.body ef.prev)
      let rt2 := res.2.foldl (addSub i) rt1
      let rt3 := setEffPS rt2 i (some res.1) res.2
      let rt4 :=
        match ef.sendTo with
        | some ch => chanSend rt3 ch res.1
        | none => rt3
      (addRun rt4 i, [])
    | _ => (rt, [])
  else (rt, [])

/-- Modelled from the spec: drain the propagation queue.  Each dequeued
node that has already run in this pass is skipped; otherwise it is run
and the nodes it notifies are appended to the queue.  `fuel` bounds the
loop (a true dependency cycle is unspecified upstream). -/
def drain [Inhabited V] [DecidableEq V] :
    Nat → Runtime V → List NodeId → List NodeId → Runtime V
  | 0, rt, _, _ => rt
  | _ + 1, rt, [], _ => rt
  | fuel + 1, rt, i :: rest, ran =>
    if i ∈ ran then drain fuel rt rest ran
    else
      let p := runNode rt i
      drain fuel p.1 (rest ++ p.2) (i :: ran)

/-- Store a new value into the signal at `i` (no diffing). -/
def setSignalValue (rt : Runtime V) (i : NodeId) (v : V) : Runtime V :=
  match rt.nodes[i]? with
  | some e =>
    match e.node with
    | .sig _ =>
      { rt with nodes := rt.nodes.set i { e with node := .sig { value := v } } }
    | _ => rt
  | none => rt

/-- Fuel used by a propagation pass; generous for acyclic graphs. -/
def fuelFor (rt : Runtime V) : Nat :=
  (rt.nodes.length + 1) * (rt.nodes.length + 1) * (rt.nodes.length + 1) + 1

/-- Modelled from the spec: a write to a live signal stores the new
value and synchronously drives one propagation pass starting from the
signal's direct subscribers. -/
def writeSignal [Inhabited V] [DecidableEq V] (rt : Runtime V) (i : NodeId)
    (v : V) : Runtime V :=
  if nodeLive rt i then
    let rt1 := setSignalValue rt i v
    drain (fuelFor rt1) rt1 (subsOf rt1 i) []
  else rt

/-- Translated from `memo.rs`: the `Memo<T>` handle wraps the id of the
underlying node (`ReadSignal<Option<T>>` in the source).  It is a plain
index, so it is `Copy` for every `T`. -/
structure Memo (T : Type) where
  id : NodeId

/-- Translated from `memo.rs` (`impl<T> Clone for Memo<T>`): cloning a
handle copies the wrapped id; no bound on `T` is required. -/
def Memo.clone {T : Type} (m : Memo T) : Memo T :=
  ⟨m.id⟩

/-- Modelled from the spec: `create_memo` allocates a Memo node owned by
`sc`, evaluates `compute(None)` immediately (eager initial computation),
stores the result, and installs the node as a subscriber of every source
it tracked during that run. -/
def createMemo [Inhabited V] [DecidableEq V] (rt : Runtime V) (sc : ScopeId)
    (f : Option V → Comp V) : Runtime V × Memo V :=
  let i := rt.nodes.length
  let res := evalComp rt (f none)
  let entry : NodeEntry V :=
    { node := .memo { compute := f, value := some res.1, sources := res.2 },
      subscribers := [], owner := sc }
  let rt1 := { rt with nodes := rt.nodes ++ [entry], runLog := rt.runLog ++ [i] }
  (res.2.foldl (addSub i) rt1, ⟨i⟩)

/-- Modelled from the spec: `create_effect` allocates an Effect node
owned by `sc`, runs its body immediately with `None`, records the
tracked reads as its sources, and (for the stream adapter) forwards the
initial result to the effect's channel. -/
def createEffect [Inhabited V] [DecidableEq V] (rt : Runtime V) (sc : ScopeId)
    (body : Option V → Comp V) (sendTo : Option ChannelId) :
    Runtime V × NodeId :=
  let i := rt.nodes.length
  let res := evalComp rt (body none)
  let entry : NodeEntry V :=
    { node := .eff { body := body, prev := some res.1, sources := res.2, sendTo := sendTo },
      subscribers := [], owner := sc }
  let rt1 := { rt with nodes := rt.nodes ++ [entry], runLog := rt.runLog ++ [i] }
  let rt2 := res.2.foldl (addSub i) rt1
  match sendTo with
  | some ch => (chanSend rt2 ch res.1, i)
  | none => (rt2, i)

/-- Modelled from the spec: `on_cleanup` appends a callback to a live
scope's cleanup list. -/
def onCleanup (rt : Runtime V) (sc : ScopeId) (c : CleanupAct) : Runtime V :=
  match rt.scopes[sc]? with
  | some s =>
    if s.disposed then rt
    else { rt with scopes := rt.scopes.set sc { s with cleanups := s.cleanups ++ [c] } }
  | none => rt

/-- Execute one cleanup callback: close the named channel, or log the
marker. -/
def runCleanup (rt : Runtime V) : CleanupAct → Runtime V
  | .closeChannel ch =>
    match rt.channels[ch]? with
    | some c => { rt with channels := rt.channels.set ch { c with closed := true } }
    | none => rt
  | .mark k => { rt with cleanupLog := rt.cleanupLog ++ [k] }

/-- Modelled from the spec: dispose a scope: dispose its children first,
run its cleanup callbacks in reverse registration order, and mark it
dead (which severs its owned nodes from propagation).  A second dispose
is a no-op.  `fuel` bounds the recursion over the scope tree. -/
def disposeGo : Nat → Runtime V → ScopeId → Runtime V
  | 0, rt, _ => rt
  | fuel + 1, rt, sc =>
    match rt.scopes[sc]? with
    | none => rt
    | some s =>
      if s.disposed then rt
      else
        let rt1 := s.children.foldl (disposeGo fuel) rt
        let rt2 := s.cleanups.reverse.foldl runCleanup rt1
        match rt2.scopes[sc]? with
        | some s2 => { rt2 with scopes := rt2.scopes.set sc { s2 with disposed := true } }
        | none => rt2

/-- Dispose a scope (fuel sized to the scope arena). -/
def dispose (rt : Runtime V) (sc : ScopeId) : Runtime V :=
  disposeGo (rt.scopes.length + 1) rt sc

/-- Translated from `memo.rs`: read of the inner
`ReadSignal<Option<T>>` of a Memo handle.  The outer `Option` is `none`
when the owning scope has been disposed (the inner signal read fails /
returns absent); the inner `Option` is the memo's cached storage. -/
def Memo.rawRead (rt : Runtime V) (m : Memo V) : Option (Option V) :=
  if nodeLive rt m.id then
    match nodePayload rt m.id with
    | some (.memo mn) => some mn.value
    | _ => none
  else none

/-- Translated from `memo.rs`: `Memo::get` is `self.0.get().unwrap()`.
A `none` result models the panic of either step. -/
def Memo.get (rt : Runtime V) (m : Memo V) : Option V :=
  (Memo.rawRead rt m).bind (fun v => v)

/-- Translated from `memo.rs`: `Memo::get_untracked` is
`self.0.get_untracked().unwrap()`. -/
def Memo.getUntracked (rt : Runtime V) (m : Memo V) : Option V :=
  (Memo.rawRead rt m).bind (fun v => v)

/-- Translated from `memo.rs`: `Memo::try_get` is
`self.0.try_get().flatten()` — absent when the scope is disposed. -/
def Memo.tryGet (rt : Runtime V) (m : Memo V) : Option V :=
  (Memo.rawRead rt m).bind (fun v => v)

/-- Translated from `memo.rs`: `Memo::try_get_untracked` is
`self.0.try_get_untracked().flatten()`. -/
def Memo.tryGetUntracked (rt : Runtime V) (m : Memo V) : Option V :=
  (Memo.rawRead rt m).bind (fun v => v)

/-- Translated from `memo.rs`: `Memo::with` applies the callback to the
unwrapped stored value: `self.0.with(|t| f(t.as_ref().unwrap()))`. -/
def Memo.withFn {O : Type} (rt : Runtime V) (m : Memo V) (f : V → O) : Option O :=
  (Memo.rawRead rt m).bind (fun v => v.map f)

/-- Translated from `memo.rs`: `Memo::try_with` is
`self.0.try_with(|t| f(t.as_ref().unwrap())).ok()`. -/
def Memo.tryWithFn {O : Type} (rt : Runtime V) (m : Memo V) (f : V → O) : Option O :=
  (Memo.rawRead rt m).bind (fun v => v.map f)

/-- Translated from `memo.rs`: `Memo::with_untracked` applies the
callback to the unwrapped stored value without tracking. -/
def Memo.withUntrackedFn {O : Type} (rt : Runtime V) (m : Memo V) (f : V → O) :
    Option O :=
  (Memo.rawRead rt m).bind (fun v => v.map f)

/-- Translated from `memo.rs` (`Memo::to_stream`): create a fresh
unbounded channel, register a cleanup on `sc` that closes it, and create
an Effect owned by `sc` whose body performs a tracked `get` of the memo
and sends the value into the channel, its send result discarded.
Returns the new runtime, the channel id, and the effect id. -/
def toStream [Inhabited V] [DecidableEq V] (rt : Runtime V) (m : Memo V)
    (sc : ScopeId) : Runtime V × ChannelId × NodeId :=
  let ch := rt.channels.length
  let rt1 := { rt with channels := rt.channels ++ [{ buffer := [], closed := false }] }
  let rt2 := onCleanup rt1 sc (.closeChannel ch)
  let p := createEffect rt2 sc (fun _ => Comp.read m.id Comp.ret) (some ch)
  (p.1, ch, p.2)

/-- The stored optional value of the memo at `i` (outer `none` when `i`
is not a memo node). -/
def memoStored (rt : Runtime V) (i : NodeId) : Option (Option V) :=
  match nodePayload rt i with
  | some (.memo m) => some m.value
  | _ => none

/-- The source edges of the memo at `i`. -/
def memoSourcesOf (rt : Runtime V) (i : NodeId) : List NodeId :=
  match nodePayload rt i with
  | some (.memo m) => m.sources
  | _ => []

/-- The channel entry at `ch`. -/
def chanEntry (rt : Runtime V) (ch : ChannelId) : Option (Channel V) :=
  rt.channels[ch]?

/-- Whether the channel at `ch` exists and is closed. -/
def chanClosed (rt : Runtime V) (ch : ChannelId) : Bool :=
  ((rt.channels[ch]?).map (fun c => c.closed)).getD false

/-- Every memo node's storage is non-absent. -/
def storageSome (rt : Runtime V) : Prop :=
  ∀ i, memoStored rt i ≠ some none

/-- Node `e` appears in no subscriber list except possibly that of `m`. -/
def subsOnlyOf (rt : Runtime V) (e m : NodeId) : Prop :=
  ∀ n, e ∈ subsOf rt n → n = m

/-- The memo at `i` has computation `f` and cached value `c`. -/
def memoCV (rt : Runtime V) (i : NodeId) (f : Option V → Comp V) (c : V) : Prop :=
  ∃ m : MemoNode V, nodePayload rt i = some (.memo m) ∧ m.compute = f ∧ m.value = some c

/-- A function on runtimes that only rewrites one subscriber list. -/
def isSubsOp (f : Runtime V → NodeId → Runtime V) : Prop :=
  ∀ rt s, ∃ g, f rt s = modifySubs rt s g

/-- The computation never performs a tracked read of `s` (untracked
reads of `s` are allowed). -/
def neverTracks (s : NodeId) : Comp V → Prop
  | .ret _ => True
  | .read src k => src ≠ s ∧ ∀ v, neverTracks s (k v)
  | .readUntracked _ k => ∀ v, neverTracks s (k v)

/-- The marker keys of a cleanup list, in order. -/
def marksOf (l : List CleanupAct) : List Nat :=
  l.filterMap (fun c => match c with | .mark k => some k | _ => none)

/-- A small concrete runtime exercising the model: signal 0 feeds memo 1,
and effect 2 subscribes only to memo 1; one live scope. -/
def rtA : Runtime Nat :=
  { nodes :=
      [ { node := .sig { value := 3 }, subscribers := [1], owner := 0 },
        { node := .memo { compute := fun _ => Comp.ret 5, value := some 5, sources := [0] },
          subscribers := [2], owner := 0 },
        { node := .eff
            { body := fun _ => Comp.ret 0, prev := none, sources := [1], sendTo := none },
          subscribers := [], owner := 0 } ],
    scopes := [{ parent := none, cleanups := [], disposed := false, children := [] }],
    channels := [], runLog := [], cleanupLog := [] }

/-- `rtA` with the memo's cached value out of date (4 instead of 5). -/
def rtB : Runtime Nat :=
  { nodes :=
      [ { node := .sig { value := 3 }, subscribers := [1], owner := 0 },
        { node := .memo { compute := fun _ => Comp.ret 5, value := some 4, sources := [0] },
          subscribers := [2], owner := 0 },
        { node := .eff
            { body := fun _ => Comp.ret 0, prev := none, sources := [1], sendTo := none },
          subscribers := [], owner := 0 } ],
    scopes := [{ parent := none, cleanups := [], disposed := false, children := [] }],
    channels := [], runLog := [], cleanupLog := [] }

/-- `rtA` with its only scope disposed. -/
def rtD : Runtime Nat :=
  { rtA with scopes := [{ parent := none, cleanups := [], disposed := true, children := [] }] }

/-- A runtime whose scope 0 carries a marker cleanup and a channel-closing
cleanup, with channel 0 still open. -/
def rtC : Runtime Nat :=
  { nodes :=
      [ { node := .sig { value := 3 }, subscribers := [], owner := 0 },
        { node := .memo { compute := fun _ => Comp.ret 5, value := some 5, sources := [] },
          subscribers := [], owner := 0 } ],
    scopes :=
      [ { parent := none, cleanups := [CleanupAct.mark 7, CleanupAct.closeChannel 0],
          disposed := false, children := [] } ],
    channels := [{ buffer := [], closed := false }], runLog := [], cleanupLog := [] }

/-- A runtime with a live effect whose channel is already closed. -/
def rtE : Runtime Nat :=
  { nodes :=
      [ { node := .sig { value := 3 }, subscribers := [1], owner := 0 },
        { node := .eff
            { body := fun _ => Comp.read 0 Comp.ret, prev := some 3, sources := [0],
              sendTo := some 0 },
          subscribers := [], owner := 0 } ],
    scopes := [{ parent := none, cleanups := [], disposed := false, children := [] }],
    channels := [{ buffer := [9], closed := true }], runLog := [], cleanupLog := [] }

/-! ### Generic helpers -/

theorem get?_append_sing {α : Type} (l : List α) (e : α) (j : Nat) :
    (l ++ [e])[j]? =
      if j < l.length then l[j]? else if j = l.length then some e else none := by
  rcases lt_trichotomy j l.length with h | h | h
  · rw [List.getElem?_append]
    simp [h]
  · subst h
    simp [List.getElem?_concat_length]
  · rw [List.getElem?_append]
    have h1 : ¬ j < l.length := by omega
    have h2 : j ≠ l.length := by omega
    simp only [h1, if_false, h2]
    exact List.getElem?_eq_none (by simp; omega)

theorem set_preserving_map {α β : Type} {l : List α} {s : Nat} {e : α} (e' : α) (f : α → β)
    (h : l[s]? = some e) (hf : f e' = f e) (j : Nat) :
    ((l.set s e')[j]?).map f = (l[j]?).map f := by
  rcases eq_or_ne s j with rfl | hne
  · obtain ⟨hlt, -⟩ := List.getElem?_eq_some.mp h
    rw [List.getElem?_set_self hlt, h]
    simp [hf]
  · rw [List.getElem?_set_ne hne]

theorem foldl_proj_eq {γ α β : Type} (f : γ → α → γ) (p : γ → β)
    (hf : ∀ g a, p (f g a) = p g) :
    ∀ (L : List α) (g : γ), p (L.foldl f g) = p g := by
  intro L
  induction L with
  | nil => intro g; rfl
  | cons a L ih =>
    intro g
    rw [List.foldl_cons, ih, hf]

theorem foldl_subs_mem {f : Runtime V → NodeId → Runtime V} {x n : NodeId}
    (hf : ∀ rt s, x ∈ subsOf (f rt s) n → x ∈ subsOf rt n) :
    ∀ (L : List NodeId) (rt : Runtime V),
      x ∈ subsOf (L.foldl f rt) n → x ∈ subsOf rt n := by
  intro L
  induction L with
  | nil => intro rt h; exact h
  | cons a L ih =>
    intro rt h
    exact hf rt a (ih (f rt a) h)

theorem foldl_subs_mem_rev {f : Runtime V → NodeId → Runtime V} {x n : NodeId}
    (hf : ∀ rt s, x ∈ subsOf rt n → x ∈ subsOf (f rt s) n) :
    ∀ (L : List NodeId) (rt : Runtime V),
      x ∈ subsOf rt n → x ∈ subsOf (L.foldl f rt) n := by
  intro L
  induction L with
  | nil => intro rt h; exact h
  | cons a L ih =>
    intro rt h
    exact ih (f rt a) (hf rt a h)

/-! ### Congruence helpers between runtimes that agree on a component -/

theorem subsOf_map (rt : Runtime V) (i : NodeId) :
    subsOf rt i = ((rt.nodes[i]?).map (fun e => e.subscribers)).getD [] := by
  unfold subsOf
  cases rt.nodes[i]? <;> rfl

theorem scopeLive_congr {rt1 rt2 : Runtime V} (h : rt1.scopes = rt2.scopes)
    (o : ScopeId) : scopeLive rt1 o = scopeLive rt2 o := by
  unfold scopeLive
  rw [h]

theorem nodeLive_congr {rt1 rt2 : Runtime V} {j : NodeId}
    (ho : nodeOwner rt1 j = nodeOwner rt2 j) (hs : rt1.scopes = rt2.scopes) :
    nodeLive rt1 j = nodeLive rt2 j := by
  unfold nodeLive
  rw [ho]
  cases nodeOwner rt2 j with
  | none => rfl
  | some o => exact scopeLive_congr hs o

theorem nodePayload_congr_nodes {rt1 rt2 : Runtime V} (h : rt1.nodes = rt2.nodes)
    (j : NodeId) : nodePayload rt1 j = nodePayload rt2 j := by
  unfold nodePayload
  rw [h]

theorem nodeOwner_congr_nodes {rt1 rt2 : Runtime V} (h : rt1.nodes = rt2.nodes)
    (j : NodeId) : nodeOwner rt1 j = nodeOwner rt2 j := by
  unfold nodeOwner
  rw [h]

theorem subsOf_congr_nodes {rt1 rt2 : Runtime V} (h : rt1.nodes = rt2.nodes)
    (j : NodeId) : subsOf rt1 j = subsOf rt2 j := by
  unfold subsOf
  rw [h]

theorem memoStored_congr {rt1 rt2 : Runtime V} {j : NodeId}
    (h : nodePayload rt1 j = nodePayload rt2 j) :
    memoStored rt1 j = memoStored rt2 j := by
  unfold memoStored
  rw [h]

theorem memoSourcesOf_congr {rt1 rt2 : Runtime V} {j : NodeId}
    (h : nodePayload rt1 j = nodePayload rt2 j) :
    memoSourcesOf rt1 j = memoSourcesOf rt2 j := by
  unfold memoSourcesOf
  rw [h]

theorem valueOf_of_memo [Inhabited V] {rt : Runtime V} {i : NodeId} {m : MemoNode V}
    (h : nodePayload rt i = some (.memo m)) :
    valueOf rt i = m.value.getD default := by
  unfold valueOf
  rw [h]

theorem chanClosed_congr {rt1 rt2 : Runtime V} {ch : ChannelId}
    (h : chanEntry rt1 ch = chanEntry rt2 ch) :
    chanClosed rt1 ch = chanClosed rt2 ch := by
  unfold chanClosed
  unfold chanEntry at h
  rw [h]

theorem subsOf_of_ge {rt : Runtime V} {n : NodeId} (h : rt.nodes.length ≤ n) :
    subsOf rt n = [] := by
  unfold subsOf
  rw [List.getElem?_eq_none h]

theorem nodePayload_of_ge {rt : Runtime V} {n : NodeId} (h : rt.nodes.length ≤ n) :
    nodePayload rt n = none := by
  unfold nodePayload
  rw [List.getElem?_eq_none h]
  rfl

theorem subsOnlyOf_of_bounded {rt : Runtime V} {x M : NodeId}
    (h : ∀ n, n < rt.nodes.length → x ∈ subsOf rt n → n = M) :
    subsOnlyOf rt x M := by
  intro n hn
  by_cases hlt : n < rt.nodes.length
  · exact h n hlt hn
  · rw [subsOf_of_ge (Nat.le_of_not_lt hlt)] at hn
    simp at hn

theorem noSubOf_of_bounded {rt : Runtime V} {x : NodeId}
    (h : ∀ n, n < rt.nodes.length → x ∉ subsOf rt n) :
    ∀ n, x ∉ subsOf rt n := by
  intro n hn
  by_cases hlt : n < rt.nodes.length
  · exact h n hlt hn
  · rw [subsOf_of_ge (Nat.le_of_not_lt hlt)] at hn
    simp at hn

theorem memoStored_of_ge {rt : Runtime V} {n : NodeId} (h : rt.nodes.length ≤ n) :
    memoStored rt n = none := by
  unfold memoStored
  rw [nodePayload_of_ge h]

theorem storageSome_of_bounded {rt : Runtime V}
    (h : ∀ i, i < rt.nodes.length → memoStored rt i ≠ some none) :
    storageSome rt := by
  intro i
  by_cases hlt : i < rt.nodes.length
  · exact h i hlt
  · rw [memoStored_of_ge (Nat.le_of_not_lt hlt)]
    simp

/-! ### Properties of the edge-rewiring operations -/

theorem modifySubs_runLog (rt : Runtime V) (s : NodeId) (g : List NodeId → List NodeId) :
    (modifySubs rt s g).runLog = rt.runLog := by
  unfold modifySubs
  split <;> rfl

theorem modifySubs_channels (rt : Runtime V) (s : NodeId) (g : List NodeId → List NodeId) :
    (modifySubs rt s g).channels = rt.channels := by
  unfold modifySubs
  split <;> rfl

theorem modifySubs_scopes (rt : Runtime V) (s : NodeId) (g : List NodeId → List NodeId) :
    (modifySubs rt s g).scopes = rt.scopes := by
  unfold modifySubs
  split <;> rfl

theorem modifySubs_cleanupLog (rt : Runtime V) (s : NodeId) (g : List NodeId → List NodeId) :
    (modifySubs rt s g).cleanupLog = rt.cleanupLog := by
  unfold modifySubs
  split <;> rfl

theorem modifySubs_len (rt : Runtime V) (s : NodeId) (g : List NodeId → List NodeId) :
    (modifySubs rt s g).nodes.length = rt.nodes.length := by
  unfold modifySubs
  split
  · exact List.length_set rt.nodes s _
  · rfl

theorem modifySubs_payload (rt : Runtime V) (s : NodeId) (g : List NodeId → List NodeId)
    (j : NodeId) : nodePayload (modifySubs rt s g) j = nodePayload rt j := by
  unfold modifySubs
  split
  · next e heq =>
    unfold nodePayload
    exact set_preserving_map { e with subscribers := g e.subscribers } (fun e => e.node) heq rfl j
  · rfl

theorem modifySubs_owner (rt : Runtime V) (s : NodeId) (g : List NodeId → List NodeId)
    (j : NodeId) : nodeOwner (modifySubs rt s g) j = nodeOwner rt j := by
  unfold modifySubs
  split
  · next e heq =>
    unfold nodeOwner
    exact set_preserving_map { e with subscribers := g e.subscribers } (fun e => e.owner) heq rfl j
  · rfl

theorem modifySubs_live (rt : Runtime V) (s : NodeId) (g : List NodeId → List NodeId)
    (j : NodeId) : nodeLive (modifySubs rt s g) j = nodeLive rt j :=
  nodeLive_congr (modifySubs_owner rt s g j) (modifySubs_scopes rt s g)

theorem modifySubs_subsOf_ne (rt : Runtime V) {s : NodeId}
    (g : List NodeId → List NodeId) {j : NodeId} (hne : j ≠ s) :
    subsOf (modifySubs rt s g) j = subsOf rt j := by
  unfold modifySubs
  split
  · next e heq =>
    rw [subsOf_map, subsOf_map]
    show (((rt.nodes.set s _)[j]?).map _).getD [] = _
    rw [List.getElem?_set_ne hne.symm]
  · rfl

theorem removeSub_isSubsOp (j : NodeId) :
    isSubsOp (removeSub j (V := V)) :=
  fun _ _ => ⟨_, rfl⟩

theorem addSub_isSubsOp (j : NodeId) :
    isSubsOp (addSub j (V := V)) :=
  fun _ _ => ⟨_, rfl⟩

theorem foldl_subsop_runLog {f : Runtime V → NodeId → Runtime V} (hf : isSubsOp f)
    (L : List NodeId) (rt : Runtime V) : (L.foldl f rt).runLog = rt.runLog :=
  foldl_proj_eq f (fun rt => rt.runLog)
    (fun g a => by obtain ⟨gg, hgg⟩ := hf g a; show (f g a).runLog = g.runLog; rw [hgg, modifySubs_runLog]) L rt

theorem foldl_subsop_channels {f : Runtime V → NodeId → Runtime V} (hf : isSubsOp f)
    (L : List NodeId) (rt : Runtime V) : (L.foldl f rt).channels = rt.channels :=
  foldl_proj_eq f (fun rt => rt.channels)
    (fun g a => by obtain ⟨gg, hgg⟩ := hf g a; show (f g a).channels = g.channels; rw [hgg, modifySubs_channels]) L rt

theorem foldl_subsop_scopes {f : Runtime V → NodeId → Runtime V} (hf : isSubsOp f)
    (L : List NodeId) (rt : Runtime V) : (L.foldl f rt).scopes = rt.scopes :=
  foldl_proj_eq f (fun rt => rt.scopes)
    (fun g a => by obtain ⟨gg, hgg⟩ := hf g a; show (f g a).scopes = g.scopes; rw [hgg, modifySubs_scopes]) L rt

theorem foldl_subsop_cleanupLog {f : Runtime V → NodeId → Runtime V} (hf : isSubsOp f)
    (L : List NodeId) (rt : Runtime V) : (L.foldl f rt).cleanupLog = rt.cleanupLog :=
  foldl_proj_eq f (fun rt => rt.cleanupLog)
    (fun g a => by obtain ⟨gg, hgg⟩ := hf g a; show (f g a).cleanupLog = g.cleanupLog; rw [hgg, modifySubs_cleanupLog]) L rt

theorem foldl_subsop_payload {f : Runtime V → NodeId → Runtime V} (hf : isSubsOp f)
    (j : NodeId) (L : List NodeId) (rt : Runtime V) :
    nodePayload (L.foldl f rt) j = nodePayload rt j :=
  foldl_proj_eq f (fun rt => nodePayload rt j)
    (fun g a => by obtain ⟨gg, hgg⟩ := hf g a; show nodePayload (f g a) j = nodePayload g j; rw [hgg, modifySubs_payload]) L rt

theorem foldl_subsop_owner {f : Runtime V → NodeId → Runtime V} (hf : isSubsOp f)
    (j : NodeId) (L : List NodeId) (rt : Runtime V) :
    nodeOwner (L.foldl f rt) j = nodeOwner rt j :=
  foldl_proj_eq f (fun rt => nodeOwner rt j)
    (fun g a => by obtain ⟨gg, hgg⟩ := hf g a; show nodeOwner (f g a) j = nodeOwner g j; rw [hgg, modifySubs_owner]) L rt

theorem foldl_subsop_len {f : Runtime V → NodeId → Runtime V} (hf : isSubsOp f)
    (L : List NodeId) (rt : Runtime V) :
    (L.foldl f rt).nodes.length = rt.nodes.length :=
  foldl_proj_eq f (fun rt => rt.nodes.length)
    (fun g a => by obtain ⟨gg, hgg⟩ := hf g a; show (f g a).nodes.length = g.nodes.length; rw [hgg, modifySubs_len]) L rt

theorem foldl_subsop_live {f : Runtime V → NodeId → Runtime V} (hf : isSubsOp f)
    (j : NodeId) (L : List NodeId) (rt : Runtime V) :
    nodeLive (L.foldl f rt) j = nodeLive rt j :=
  nodeLive_congr (foldl_subsop_owner hf j L rt) (foldl_subsop_scopes hf L rt)

theorem mem_subsOf_removeSub {rt : Runtime V} {x j s n : NodeId}
    (h : x ∈ subsOf (removeSub j rt s) n) : x ∈ subsOf rt n := by
  unfold removeSub modifySubs at h
  split at h
  · next e heq =>
    rcases eq_or_ne n s with rfl | hne
    · rw [subsOf_map] at h
      obtain ⟨hlt, -⟩ := List.getElem?_eq_some.mp heq
      rw [show ({ rt with nodes := rt.nodes.set n { e with subscribers := e.subscribers.filter (fun x => x != j) } } : Runtime V).nodes = rt.nodes.set n { e with subscribers := e.subscribers.filter (fun x => x != j) } from rfl] at h
      rw [List.getElem?_set_self hlt] at h
      simp only [Option.map_some', Option.getD_some] at h
      rw [subsOf_map, heq]
      simp only [Option.map_some', Option.getD_some]
      exact (List.mem_filter.mp h).1
    · rw [subsOf_map] at h
      rw [show ({ rt with nodes := rt.nodes.set s { e with subscribers := e.subscribers.filter (fun x => x != j) } } : Runtime V).nodes = rt.nodes.set s { e with subscribers := e.subscribers.filter (fun x => x != j) } from rfl] at h
      rw [List.getElem?_set_ne hne.symm] at h
      rw [subsOf_map]
      exact h
  · exact h

theorem mem_subsOf_removeSub_rev {rt : Runtime V} {x j s n : NodeId} (hx : x ≠ j)
    (h : x ∈ subsOf rt n) : x ∈ subsOf (removeSub j rt s) n := by
  unfold removeSub modifySubs
  split
  · next e heq =>
    rcases eq_or_ne n s with rfl | hne
    · rw [subsOf_map]
      obtain ⟨hlt, -⟩ := List.getElem?_eq_some.mp heq
      rw [show ({ rt with nodes := rt.nodes.set n { e with subscribers := e.subscribers.filter (fun x => x != j) } } : Runtime V).nodes = rt.nodes.set n { e with subscribers := e.subscribers.filter (fun x => x != j) } from rfl]
      rw [List.getElem?_set_self hlt]
      simp only [Option.map_some', Option.getD_some]
      rw [subsOf_map, heq] at h
      simp only [Option.map_some', Option.getD_some] at h
      exact List.mem_filter.mpr ⟨h, by simp [hx]⟩
    · rw [subsOf_map]
      rw [show ({ rt with nodes := rt.nodes.set s { e with subscribers := e.subscribers.filter (fun x => x != j) } } : Runtime V).nodes = rt.nodes.set s { e with subscribers := e.subscribers.filter (fun x => x != j) } from rfl]
      rw [List.getElem?_set_ne hne.symm]
      rw [subsOf_map] at h
      exact h
  · exact h

theorem mem_subsOf_addSub {rt : Runtime V} {x j s n : NodeId} (hx : x ≠ j)
    (h : x ∈ subsOf (addSub j rt s) n) : x ∈ subsOf rt n := by
  unfold addSub modifySubs at h
  split at h
  · next e heq =>
    rcases eq_or_ne n s with rfl | hne
    · rw [subsOf_map] at h
      obtain ⟨hlt, -⟩ := List.getElem?_eq_some.mp heq
      rw [show ({ rt with nodes := rt.nodes.set n { e with subscribers := if j ∈ e.subscribers then e.subscribers else e.subscribers ++ [j] } } : Runtime V).nodes = rt.nodes.set n { e with subscribers := if j ∈ e.subscribers then e.subscribers else e.subscribers ++ [j] } from rfl] at h
      rw [List.getElem?_set_self hlt] at h
      simp only [Option.map_some', Option.getD_some] at h
      rw [subsOf_map, heq]
      simp only [Option.map_some', Option.getD_some]
      by_cases hj : j ∈ e.subscribers
      · rw [if_pos hj] at h
        exact h
      · rw [if_neg hj] at h
        rcases List.mem_append.mp h with h1 | h1
        · exact h1
        · exact absurd (List.mem_singleton.mp h1) hx
    · rw [subsOf_map] at h
      rw [show ({ rt with nodes := rt.nodes.set s { e with subscribers := if j ∈ e.subscribers then e.subscribers else e.subscribers ++ [j] } } : Runtime V).nodes = rt.nodes.set s { e with subscribers := if j ∈ e.subscribers then e.subscribers else e.subscribers ++ [j] } from rfl] at h
      rw [List.getElem?_set_ne hne.symm] at h
      rw [subsOf_map]
      exact h
  · exact h

theorem mem_subsOf_addSub_rev {rt : Runtime V} {x j s n : NodeId}
    (h : x ∈ subsOf rt n) : x ∈ subsOf (addSub j rt s) n := by
  unfold addSub modifySubs
  split
  · next e heq =>
    rcases eq_or_ne n s with rfl | hne
    · rw [subsOf_map]
      obtain ⟨hlt, -⟩ := List.getElem?_eq_some.mp heq
      rw [show ({ rt with nodes := rt.nodes.set n { e with subscribers := if j ∈ e.subscribers then e.subscribers else e.subscribers ++ [j] } } : Runtime V).nodes = rt.nodes.set n { e with subscribers := if j ∈ e.subscribers then e.subscribers else e.subscribers ++ [j] } from rfl]
      rw [List.getElem?_set_self hlt]
      simp only [Option.map_some', Option.getD_some]
      rw [subsOf_map, heq] at h
      simp only [Option.map_some', Option.getD_some] at h
      by_cases hj : j ∈ e.subscribers
      · rw [if_pos hj]
        exact h
      · rw [if_neg hj]
        exact List.mem_append.mpr (Or.inl h)
    · rw [subsOf_map]
      rw [show ({ rt with nodes := rt.nodes.set s { e with subscribers := if j ∈ e.subscribers then e.subscribers else e.subscribers ++ [j] } } : Runtime V).nodes = rt.nodes.set s { e with subscribers := if j ∈ e.subscribers then e.subscribers else e.subscribers ++ [j] } from rfl]
      rw [List.getElem?_set_ne hne.symm]
      rw [subsOf_map] at h
      exact h
  · exact h

theorem addSub_mem_self {rt : Runtime V} {j s : NodeId} (h : nodePayload rt s ≠ none) :
    j ∈ subsOf (addSub j rt s) s := by
  unfold addSub modifySubs
  split
  · next e heq =>
    rw [subsOf_map]
    obtain ⟨hlt, -⟩ := List.getElem?_eq_some.mp heq
    rw [show ({ rt with nodes := rt.nodes.set s { e with subscribers := if j ∈ e.subscribers then e.subscribers else e.subscribers ++ [j] } } : Runtime V).nodes = rt.nodes.set s { e with subscribers := if j ∈ e.subscribers then e.subscribers else e.subscribers ++ [j] } from rfl]
    rw [List.getElem?_set_self hlt]
    simp only [Option.map_some', Option.getD_some]
    by_cases hj : j ∈ e.subscribers
    · rw [if_pos hj]
      exact hj
    · rw [if_neg hj]
      exact List.mem_append.mpr (Or.inr (List.mem_singleton.mpr rfl))
  · next heq =>
    exact absurd (by unfold nodePayload; rw [heq]; rfl) h

theorem foldl_addSub_subsOf_notmem {j s : NodeId} :
    ∀ (L : List NodeId) (rt : Runtime V), s ∉ L →
      subsOf (L.foldl (addSub j) rt) s = subsOf rt s := by
  intro L
  induction L with
  | nil => intro rt _; rfl
  | cons a L ih =>
    intro rt h
    rw [List.foldl_cons]
    have hs : s ∉ L := fun hh => h (List.mem_cons.mpr (Or.inr hh))
    have ha : s ≠ a := fun hh => h (List.mem_cons.mpr (Or.inl hh))
    rw [ih (addSub j rt a) hs]
    exact modifySubs_subsOf_ne rt _ ha

/-! ### Properties of the node/channel/scope update operations -/

theorem setMemoVS_scopes (rt : Runtime V) (i : NodeId) (v : Option V) (srcs : List NodeId) :
    (setMemoVS rt i v srcs).scopes = rt.scopes := by
  unfold setMemoVS
  split
  · split <;> rfl
  · rfl

theorem setMemoVS_channels (rt : Runtime V) (i : NodeId) (v : Option V) (srcs : List NodeId) :
    (setMemoVS rt i v srcs).channels = rt.channels := by
  unfold setMemoVS
  split
  · split <;> rfl
  · rfl

theorem setMemoVS_runLog (rt : Runtime V) (i : NodeId) (v : Option V) (srcs : List NodeId) :
    (setMemoVS rt i v srcs).runLog = rt.runLog := by
  unfold setMemoVS
  split
  · split <;> rfl
  · rfl

theorem setMemoVS_subsOf (rt : Runtime V) (i : NodeId) (v : Option V) (srcs : List NodeId)
    (j : NodeId) : subsOf (setMemoVS rt i v srcs) j = subsOf rt j := by
  unfold setMemoVS
  split
  · next e heq =>
    split
    · next m2 hm2 =>
      rw [subsOf_map, subsOf_map]
      show (((rt.nodes.set i _)[j]?).map _).getD [] = _
      rw [set_preserving_map { e with node := Node.memo { m2 with value := v, sources := srcs } } (fun e => e.subscribers) heq rfl j]
    · rfl
  · rfl

theorem setMemoVS_owner (rt : Runtime V) (i : NodeId) (v : Option V) (srcs : List NodeId)
    (j : NodeId) : nodeOwner (setMemoVS rt i v srcs) j = nodeOwner rt j := by
  unfold setMemoVS
  split
  · next e heq =>
    split
    · next m2 hm2 =>
      unfold nodeOwner
      exact set_preserving_map { e with node := Node.memo { m2 with value := v, sources := srcs } } (fun e => e.owner) heq rfl j
    · rfl
  · rfl

theorem setMemoVS_live (rt : Runtime V) (i : NodeId) (v : Option V) (srcs : List NodeId)
    (j : NodeId) : nodeLive (setMemoVS rt i v srcs) j = nodeLive rt j :=
  nodeLive_congr (setMemoVS_owner rt i v srcs j) (setMemoVS_scopes rt i v srcs)

theorem setMemoVS_payload_ne {rt : Runtime V} {i j : NodeId} (v : Option V)
    (srcs : List NodeId) (hne : j ≠ i) :
    nodePayload (setMemoVS rt i v srcs) j = nodePayload rt j := by
  unfold setMemoVS
  split
  · next e heq =>
    split
    · unfold nodePayload
      show ((rt.nodes.set i _)[j]?).map _ = _
      rw [List.getElem?_set_ne hne.symm]
    · rfl
  · rfl

theorem setMemoVS_payload_self {rt : Runtime V} {i : NodeId} {m : MemoNode V}
    (v : Option V) (srcs : List NodeId) (h : nodePayload rt i = some (.memo m)) :
    nodePayload (setMemoVS rt i v srcs) i =
      some (.memo { m with value := v, sources := srcs }) := by
  unfold setMemoVS
  split
  · next e heq =>
    have hnode : e.node = .memo m := by
      unfold nodePayload at h
      rw [heq] at h
      exact Option.some.inj h
    split
    · next m2 hm2 =>
      have hm : m2 = m := by
        rw [hnode] at hm2
        cases hm2
        rfl
      subst hm
      obtain ⟨hlt, -⟩ := List.getElem?_eq_some.mp heq
      unfold nodePayload
      show ((rt.nodes.set i _)[i]?).map _ = _
      rw [List.getElem?_set_self hlt]
      rfl
    · next hm2 =>
      exact absurd hnode (hm2 m)
  · next heq =>
    unfold nodePayload at h
    rw [heq] at h
    exact absurd h (by simp)

theorem setEffPS_scopes (rt : Runtime V) (i : NodeId) (p : Option V) (srcs : List NodeId) :
    (setEffPS rt i p srcs).scopes = rt.scopes := by
  unfold setEffPS
  split
  · split <;> rfl
  · rfl

theorem setEffPS_channels (rt : Runtime V) (i : NodeId) (p : Option V) (srcs : List NodeId) :
    (setEffPS rt i p srcs).channels = rt.channels := by
  unfold setEffPS
  split
  · split <;> rfl
  · rfl

theorem setEffPS_runLog (rt : Runtime V) (i : NodeId) (p : Option V) (srcs : List NodeId) :
    (setEffPS rt i p srcs).runLog = rt.runLog := by
  unfold setEffPS
  split
  · split <;> rfl
  · rfl

theorem setEffPS_subsOf (rt : Runtime V) (i : NodeId) (p : Option V) (srcs : List NodeId)
    (j : NodeId) : subsOf (setEffPS rt i p srcs) j = subsOf rt j := by
  unfold setEffPS
  split
  · next e heq =>
    split
    · next e2 he2 =>
      rw [subsOf_map, subsOf_map]
      show (((rt.nodes.set i _)[j]?).map _).getD [] = _
      rw [set_preserving_map { e with node := Node.eff { e2 with prev := p, sources := srcs } } (fun e => e.subscribers) heq rfl j]
    · rfl
  · rfl

theorem setEffPS_owner (rt : Runtime V) (i : NodeId) (p : Option V) (srcs : List NodeId)
    (j : NodeId) : nodeOwner (setEffPS rt i p srcs) j = nodeOwner rt j := by
  unfold setEffPS
  split
  · next e heq =>
    split
    · next e2 he2 =>
      unfold nodeOwner
      exact set_preserving_map { e with node := Node.eff { e2 with prev := p, sources := srcs } } (fun e => e.owner) heq rfl j
    · rfl
  · rfl

theorem setEffPS_payload_ne {rt : Runtime V} {i j : NodeId} (p : Option V)
    (srcs : List NodeId) (hne : j ≠ i) :
    nodePayload (setEffPS rt i p srcs) j = nodePayload rt j := by
  unfold setEffPS
  split
  · next e heq =>
    split
    · unfold nodePayload
      show ((rt.nodes.set i _)[j]?).map _ = _
      rw [List.getElem?_set_ne hne.symm]
    · rfl
  · rfl

theorem setEffPS_payload_self {rt : Runtime V} {i : NodeId} {ef : EffectNode V}
    (p : Option V) (srcs : List NodeId) (h : nodePayload rt i = some (.eff ef)) :
    nodePayload (setEffPS rt i p srcs) i =
      some (.eff { ef with prev := p, sources := srcs }) := by
  unfold setEffPS
  split
  · next e heq =>
    have hnode : e.node = .eff ef := by
      unfold nodePayload at h
      rw [heq] at h
      exact Option.some.inj h
    split
    · next e2 he2 =>
      have hm : e2 = ef := by
        rw [hnode] at he2
        cases he2
        rfl
      subst hm
      obtain ⟨hlt, -⟩ := List.getElem?_eq_some.mp heq
      unfold nodePayload
      show ((rt.nodes.set i _)[i]?).map _ = _
      rw [List.getElem?_set_self hlt]
      rfl
    · next he2 =>
      exact absurd hnode (he2 ef)
  · next heq =>
    unfold nodePayload at h
    rw [heq] at h
    exact absurd h (by simp)

theorem setSignalValue_scopes (rt : Runtime V) (i : NodeId) (v : V) :
    (setSignalValue rt i v).scopes = rt.scopes := by
  unfold setSignalValue
  split
  · split <;> rfl
  · rfl

theorem setSignalValue_channels (rt : Runtime V) (i : NodeId) (v : V) :
    (setSignalValue rt i v).channels = rt.channels := by
  unfold setSignalValue
  split
  · split <;> rfl
  · rfl

theorem setSignalValue_runLog (rt : Runtime V) (i : NodeId) (v : V) :
    (setSignalValue rt i v).runLog = rt.runLog := by
  unfold setSignalValue
  split
  · split <;> rfl
  · rfl

theorem setSignalValue_subsOf (rt : Runtime V) (i : NodeId) (v : V) (j : NodeId) :
    subsOf (setSignalValue rt i v) j = subsOf rt j := by
  unfold setSignalValue
  split
  · next e heq =>
    split
    · next s2 hs2 =>
      rw [subsOf_map, subsOf_map]
      show (((rt.nodes.set i _)[j]?).map _).getD [] = _
      rw [set_preserving_map { e with node := Node.sig { value := v } } (fun e => e.subscribers) heq rfl j]
    · rfl
  · rfl

theorem setSignalValue_owner (rt : Runtime V) (i : NodeId) (v : V) (j : NodeId) :
    nodeOwner (setSignalValue rt i v) j = nodeOwner rt j := by
  unfold setSignalValue
  split
  · next e heq =>
    split
    · next s2 hs2 =>
      unfold nodeOwner
      exact set_preserving_map { e with node := Node.sig { value := v } } (fun e => e.owner) heq rfl j
    · rfl
  · rfl

theorem setSignalValue_live (rt : Runtime V) (i : NodeId) (v : V) (j : NodeId) :
    nodeLive (setSignalValue rt i v) j = nodeLive rt j :=
  nodeLive_congr (setSignalValue_owner rt i v j) (setSignalValue_scopes rt i v)

theorem setSignalValue_payload_ne {rt : Runtime V} {i j : NodeId} (v : V) (hne : j ≠ i) :
    nodePayload (setSignalValue rt i v) j = nodePayload rt j := by
  unfold setSignalValue
  split
  · next e heq =>
    split
    · unfold nodePayload
      show ((rt.nodes.set i _)[j]?).map _ = _
      rw [List.getElem?_set_ne hne.symm]
    · rfl
  · rfl

theorem setSignalValue_self_cases (rt : Runtime V) (i : NodeId) (v : V) :
    setSignalValue rt i v = rt ∨
      nodePayload (setSignalValue rt i v) i = some (.sig { value := v }) := by
  unfold setSignalValue
  split
  · next e heq =>
    split
    · next s2 hs2 =>
      right
      obtain ⟨hlt, -⟩ := List.getElem?_eq_some.mp heq
      unfold nodePayload
      show ((rt.nodes.set i _)[i]?).map _ = _
      rw [List.getElem?_set_self hlt]
      rfl
    · left; rfl
  · left; rfl

theorem setSignalValue_memoStored (rt : Runtime V) (i : NodeId) (v : V) (j : NodeId) :
    memoStored (setSignalValue rt i v) j = memoStored rt j ∨
      memoStored (setSignalValue rt i v) j = none := by
  rcases eq_or_ne j i with rfl | hne
  · rcases setSignalValue_self_cases rt j v with h | h
    · left
      rw [h]
    · right
      unfold memoStored
      rw [h]
  · left
    exact memoStored_congr (setSignalValue_payload_ne v hne)

theorem chanSend_nodes (rt : Runtime V) (ch : ChannelId) (v : V) :
    (chanSend rt ch v).nodes = rt.nodes := by
  unfold chanSend
  split
  · split <;> rfl
  · rfl

theorem chanSend_scopes (rt : Runtime V) (ch : ChannelId) (v : V) :
    (chanSend rt ch v).scopes = rt.scopes := by
  unfold chanSend
  split
  · split <;> rfl
  · rfl

theorem chanSend_runLog (rt : Runtime V) (ch : ChannelId) (v : V) :
    (chanSend rt ch v).runLog = rt.runLog := by
  unfold chanSend
  split
  · split <;> rfl
  · rfl

theorem chanSend_len (rt : Runtime V) (ch : ChannelId) (v : V) :
    (chanSend rt ch v).channels.length = rt.channels.length := by
  unfold chanSend
  split
  · split
    · rfl
    · exact List.length_set rt.channels ch _
  · rfl

theorem chanSend_of_closed {rt : Runtime V} {ch : ChannelId} (v : V)
    (h : chanClosed rt ch = true) : chanSend rt ch v = rt := by
  unfold chanClosed at h
  unfold chanSend
  split
  · next c heq =>
    rw [heq] at h
    simp only [Option.map_some', Option.getD_some] at h
    rw [if_pos h]
  · rfl

theorem chanSend_entry_pres {rt : Runtime V} {ch ch2 : ChannelId} (v : V)
    (h : chanClosed rt ch = true) :
    chanEntry (chanSend rt ch2 v) ch = chanEntry rt ch := by
  rcases eq_or_ne ch2 ch with rfl | hne
  · rw [chanSend_of_closed v h]
  · unfold chanSend
    split
    · next c heq =>
      split
      · rfl
      · unfold chanEntry
        show (rt.channels.set ch2 _)[ch]? = _
        rw [List.getElem?_set_ne hne]
    · rfl

theorem addRun_runLog (rt : Runtime V) (i : NodeId) :
    (addRun rt i).runLog = rt.runLog ++ [i] := rfl

theorem addRun_nodes (rt : Runtime V) (i : NodeId) :
    (addRun rt i).nodes = rt.nodes := rfl

theorem addRun_scopes (rt : Runtime V) (i : NodeId) :
    (addRun rt i).scopes = rt.scopes := rfl

theorem addRun_channels (rt : Runtime V) (i : NodeId) :
    (addRun rt i).channels = rt.channels := rfl

theorem onCleanup_nodes (rt : Runtime V) (sc : ScopeId) (c : CleanupAct) :
    (onCleanup rt sc c).nodes = rt.nodes := by
  unfold onCleanup
  split
  · split <;> rfl
  · rfl

theorem onCleanup_channels (rt : Runtime V) (sc : ScopeId) (c : CleanupAct) :
    (onCleanup rt sc c).channels = rt.channels := by
  unfold onCleanup
  split
  · split <;> rfl
  · rfl

theorem onCleanup_runLog (rt : Runtime V) (sc : ScopeId) (c : CleanupAct) :
    (onCleanup rt sc c).runLog = rt.runLog := by
  unfold onCleanup
  split
  · split <;> rfl
  · rfl

theorem onCleanup_eq {rt : Runtime V} {sc : ScopeId} {s0 : ScopeEntry} (c : CleanupAct)
    (hs : rt.scopes[sc]? = some s0) (hnd : s0.disposed = false) :
    onCleanup rt sc c =
      { rt with scopes := rt.scopes.set sc { s0 with cleanups := s0.cleanups ++ [c] } } := by
  unfold onCleanup
  rw [hs]
  simp [hnd]

theorem runCleanup_nodes (rt : Runtime V) (c : CleanupAct) :
    (runCleanup rt c).nodes = rt.nodes := by
  cases c with
  | closeChannel ch =>
    simp only [runCleanup]
    split <;> rfl
  | mark k => rfl

theorem runCleanup_scopes (rt : Runtime V) (c : CleanupAct) :
    (runCleanup rt c).scopes = rt.scopes := by
  cases c with
  | closeChannel ch =>
    simp only [runCleanup]
    split <;> rfl
  | mark k => rfl

theorem runCleanup_cleanupLog_close (rt : Runtime V) (ch : ChannelId) :
    (runCleanup rt (.closeChannel ch)).cleanupLog = rt.cleanupLog := by
  simp only [runCleanup]
  split <;> rfl

theorem runCleanup_cleanupLog_mark (rt : Runtime V) (k : Nat) :
    (runCleanup rt (.mark k)).cleanupLog = rt.cleanupLog ++ [k] := rfl

theorem runCleanup_chan_isSome {rt : Runtime V} {ch : ChannelId} (c : CleanupAct)
    (h : (chanEntry rt ch).isSome = true) :
    (chanEntry (runCleanup rt c) ch).isSome = true := by
  cases c with
  | closeChannel ch2 =>
    simp only [runCleanup]
    split
    · next cc heq =>
      rcases eq_or_ne ch2 ch with rfl | hne
      · unfold chanEntry
        obtain ⟨hlt, -⟩ := List.getElem?_eq_some.mp heq
        show ((rt.channels.set ch2 _)[ch2]?).isSome = true
        rw [List.getElem?_set_self hlt]
        rfl
      · unfold chanEntry
        show ((rt.channels.set ch2 _)[ch]?).isSome = true
        rw [List.getElem?_set_ne hne]
        exact h
    · exact h
  | mark k => exact h

theorem runCleanup_chanClosed_stable {rt : Runtime V} {ch : ChannelId} (c : CleanupAct)
    (h : chanClosed rt ch = true) : chanClosed (runCleanup rt c) ch = true := by
  cases c with
  | closeChannel ch2 =>
    simp only [runCleanup]
    split
    · next cc heq =>
      rcases eq_or_ne ch2 ch with rfl | hne
      · unfold chanClosed
        obtain ⟨hlt, -⟩ := List.getElem?_eq_some.mp heq
        show (((rt.channels.set ch2 _)[ch2]?).map _).getD false = true
        rw [List.getElem?_set_self hlt]
        rfl
      · unfold chanClosed
        show (((rt.channels.set ch2 _)[ch]?).map _).getD false = true
        rw [List.getElem?_set_ne hne]
        exact h
    · exact h
  | mark k => exact h

theorem runCleanup_closes {rt : Runtime V} {ch : ChannelId}
    (h : (chanEntry rt ch).isSome = true) :
    chanClosed (runCleanup rt (.closeChannel ch)) ch = true := by
  simp only [runCleanup]
  split
  · next cc heq =>
    unfold chanClosed
    obtain ⟨hlt, -⟩ := List.getElem?_eq_some.mp heq
    show (((rt.channels.set ch _)[ch]?).map _).getD false = true
    rw [List.getElem?_set_self hlt]
    rfl
  · next heq =>
    unfold chanEntry at h
    rw [heq] at h
    simp at h

/-! ### Properties of `runNode` -/

theorem addRun_payload (rt : Runtime V) (i j : NodeId) :
    nodePayload (addRun rt i) j = nodePayload rt j := rfl

theorem addRun_subsOf (rt : Runtime V) (i j : NodeId) :
    subsOf (addRun rt i) j = subsOf rt j := rfl

theorem chanSend_payload (rt : Runtime V) (ch : ChannelId) (v : V) (j : NodeId) :
    nodePayload (chanSend rt ch v) j = nodePayload rt j :=
  nodePayload_congr_nodes (chanSend_nodes rt ch v) j

theorem chanSend_subsOf (rt : Runtime V) (ch : ChannelId) (v : V) (j : NodeId) :
    subsOf (chanSend rt ch v) j = subsOf rt j :=
  subsOf_congr_nodes (chanSend_nodes rt ch v) j

theorem chanEntry_congr {rt1 rt2 : Runtime V} (h : rt1.channels = rt2.channels)
    (ch : ChannelId) : chanEntry rt1 ch = chanEntry rt2 ch := by
  unfold chanEntry
  rw [h]

theorem chanClosed_eq_entry (rt : Runtime V) (ch : ChannelId) :
    chanClosed rt ch = ((chanEntry rt ch).map (fun c => c.closed)).getD false := rfl

theorem runNode_runLog [Inhabited V] [DecidableEq V] (rt : Runtime V) (i : NodeId) :
    (runNode rt i).1.runLog = rt.runLog ∨
      (runNode rt i).1.runLog = rt.runLog ++ [i] := by
  unfold runNode
  split
  · split
    · next m heq =>
      right
      simp only []
      rw [addRun_runLog, setMemoVS_runLog, foldl_subsop_runLog (addSub_isSubsOp i),
        foldl_subsop_runLog (removeSub_isSubsOp i)]
    · next ef heq =>
      right
      simp only []
      rw [addRun_runLog]
      split
      · rw [chanSend_runLog, setEffPS_runLog, foldl_subsop_runLog (addSub_isSubsOp i),
          foldl_subsop_runLog (removeSub_isSubsOp i)]
      · rw [setEffPS_runLog, foldl_subsop_runLog (addSub_isSubsOp i),
          foldl_subsop_runLog (removeSub_isSubsOp i)]
    · left; rfl
  · left; rfl

theorem runNode_payload_ne [Inhabited V] [DecidableEq V] {rt : Runtime V} {i j : NodeId}
    (hne : j ≠ i) : nodePayload (runNode rt i).1 j = nodePayload rt j := by
  unfold runNode
  split
  · split
    · next m heq =>
      simp only []
      rw [addRun_payload, setMemoVS_payload_ne _ _ hne,
        foldl_subsop_payload (addSub_isSubsOp i) j, foldl_subsop_payload (removeSub_isSubsOp i) j]
    · next ef heq =>
      simp only []
      rw [addRun_payload]
      split
      · rw [chanSend_payload, setEffPS_payload_ne _ _ hne,
          foldl_subsop_payload (addSub_isSubsOp i) j, foldl_subsop_payload (removeSub_isSubsOp i) j]
      · rw [setEffPS_payload_ne _ _ hne,
          foldl_subsop_payload (addSub_isSubsOp i) j, foldl_subsop_payload (removeSub_isSubsOp i) j]
    · rfl
  · rfl

theorem runNode_subs_mem [Inhabited V] [DecidableEq V] {rt : Runtime V} {x i n : NodeId}
    (hx : x ≠ i) (h : x ∈ subsOf (runNode rt i).1 n) : x ∈ subsOf rt n := by
  unfold runNode at h
  split at h
  · split at h
    · next m heq =>
      simp only [] at h
      rw [addRun_subsOf, setMemoVS_subsOf] at h
      exact foldl_subs_mem (fun rt s hh => mem_subsOf_removeSub hh) _ _
        (foldl_subs_mem (fun rt s hh => mem_subsOf_addSub hx hh) _ _ h)
    · next ef heq =>
      simp only [] at h
      rw [addRun_subsOf] at h
      split at h
      · rw [chanSend_subsOf, setEffPS_subsOf] at h
        exact foldl_subs_mem (fun rt s hh => mem_subsOf_removeSub hh) _ _
          (foldl_subs_mem (fun rt s hh => mem_subsOf_addSub hx hh) _ _ h)
      · rw [setEffPS_subsOf] at h
        exact foldl_subs_mem (fun rt s hh => mem_subsOf_removeSub hh) _ _
          (foldl_subs_mem (fun rt s hh => mem_subsOf_addSub hx hh) _ _ h)
    · exact h
  · exact h

theorem runNode_notif_mem [Inhabited V] [DecidableEq V] {rt : Runtime V} {x i : NodeId}
    (hx : x ≠ i) (h : x ∈ (runNode rt i).2) : x ∈ subsOf rt i := by
  unfold runNode at h
  split at h
  · split at h
    · next m heq =>
      simp only [] at h
      split at h
      · simp at h
      · exact foldl_subs_mem (fun rt s hh => mem_subsOf_removeSub hh) _ _
          (foldl_subs_mem (fun rt s hh => mem_subsOf_addSub hx hh) _ _ h)
    · next ef heq =>
      simp only [] at h
      simp at h
    · simp at h
  · simp at h

theorem runNode_memoCV [Inhabited V] [DecidableEq V] {rt : Runtime V} {M : NodeId}
    {f : Option V → Comp V} {c : V} (hcv : memoCV rt M f c)
    (hf : ∀ rt' : Runtime V, (evalComp rt' (f (some c))).1 = c) :
    (runNode rt M).2 = [] ∧ memoCV (runNode rt M).1 M f c := by
  obtain ⟨m, hp, hcomp, hval⟩ := hcv
  unfold runNode
  split
  · split
    · next m2 heq =>
      have hm : m2 = m := by
        have h1 : some (Node.memo m) = some (Node.memo m2) := hp.symm.trans heq
        have h2 : Node.memo m = Node.memo m2 := Option.some.inj h1
        cases h2
        rfl
      subst hm
      have hres :
          (evalComp (m2.sources.foldl (removeSub M) rt) (m2.compute m2.value)).1 = c := by
        rw [hcomp, hval]
        exact hf _
      have hcond : m2.value =
          some (evalComp (m2.sources.foldl (removeSub M) rt) (m2.compute m2.value)).1 := by
        rw [hres, hval]
      constructor
      · simp only []
        rw [if_pos hcond]
      · simp only []
        rw [if_pos hcond]
        have hp2 : nodePayload
            ((evalComp (m2.sources.foldl (removeSub M) rt) (m2.compute m2.value)).2.foldl
              (addSub M) (m2.sources.foldl (removeSub M) rt)) M = some (.memo m2) := by
          rw [foldl_subsop_payload (addSub_isSubsOp M) M,
            foldl_subsop_payload (removeSub_isSubsOp M) M]
          exact hp
        refine ⟨{ m2 with value := m2.value, sources :=
            (evalComp (m2.sources.foldl (removeSub M) rt) (m2.compute m2.value)).2 },
          ?_, ?_, ?_⟩
        · rw [addRun_payload]
          exact setMemoVS_payload_self _ _ hp2
        · exact hcomp
        · exact hval
    · next ef heq =>
      rw [hp] at heq
      simp at heq
    · next h1 h2 =>
      exact absurd hp (h1 m)
  · exact ⟨rfl, ⟨m, hp, hcomp, hval⟩⟩

theorem memoStored_of_payload {rt : Runtime V} {i : NodeId} {m : MemoNode V}
    (h : nodePayload rt i = some (.memo m)) : memoStored rt i = some m.value := by
  unfold memoStored
  rw [h]

theorem memoStored_of_eff {rt : Runtime V} {i : NodeId} {e : EffectNode V}
    (h : nodePayload rt i = some (.eff e)) : memoStored rt i = none := by
  unfold memoStored
  rw [h]

theorem runNode_storageSome [Inhabited V] [DecidableEq V] {rt : Runtime V} (i : NodeId)
    (h : storageSome rt) : storageSome (runNode rt i).1 := by
  intro j
  rcases eq_or_ne j i with rfl | hne
  · unfold runNode
    split
    · split
      · next m heq =>
        simp only []
        have hp2 : nodePayload
            ((evalComp (m.sources.foldl (removeSub j) rt) (m.compute m.value)).2.foldl
              (addSub j) (m.sources.foldl (removeSub j) rt)) j = some (.memo m) := by
          rw [foldl_subsop_payload (addSub_isSubsOp j) j,
            foldl_subsop_payload (removeSub_isSubsOp j) j]
          exact heq
        intro hcontra
        rw [memoStored_of_payload
          ((addRun_payload _ _ j).trans (setMemoVS_payload_self _ _ hp2))] at hcontra
        have h2 : (if m.value =
              some (evalComp (m.sources.foldl (removeSub j) rt) (m.compute m.value)).1
            then m.value
            else some (evalComp (m.sources.foldl (removeSub j) rt) (m.compute m.value)).1) =
            none := Option.some.inj hcontra
        split at h2
        · next hcond =>
          rw [hcond] at h2
          simp at h2
        · simp at h2
      · next ef heq =>
        simp only []
        have hp2 : nodePayload
            ((evalComp (ef.sources.foldl (removeSub j) rt) (ef.body ef.prev)).2.foldl
              (addSub j) (ef.sources.foldl (removeSub j) rt)) j = some (.eff ef) := by
          rw [foldl_subsop_payload (addSub_isSubsOp j) j,
            foldl_subsop_payload (removeSub_isSubsOp j) j]
          exact heq
        split
        · next ch2 hch2 =>
          rw [memoStored_of_eff ((addRun_payload _ _ j).trans
            ((chanSend_payload _ _ _ j).trans (setEffPS_payload_self _ _ hp2)))]
          simp
        · next hch2 =>
          rw [memoStored_of_eff ((addRun_payload _ _ j).trans
            (setEffPS_payload_self _ _ hp2))]
          simp
      · exact h j
    · exact h j
  · rw [memoStored_congr (runNode_payload_ne hne)]
    exact h j

theorem runNode_chanEntry_closed [Inhabited V] [DecidableEq V] {rt : Runtime V}
    {ch : ChannelId} (i : NodeId) (h : chanClosed rt ch = true) :
    chanEntry (runNode rt i).1 ch = chanEntry rt ch := by
  unfold runNode
  split
  · split
    · next m heq =>
      simp only []
      rw [chanEntry_congr (addRun_channels _ _), chanEntry_congr (setMemoVS_channels _ _ _ _),
        chanEntry_congr (foldl_subsop_channels (addSub_isSubsOp i) _ _),
        chanEntry_congr (foldl_subsop_channels (removeSub_isSubsOp i) _ _)]
    · next ef heq =>
      simp only []
      rw [chanEntry_congr (addRun_channels _ _)]
      split
      · next ch2 hch2 =>
        have hc3 : chanClosed (setEffPS
            ((evalComp (ef.sources.foldl (removeSub i) rt) (ef.body ef.prev)).2.foldl
              (addSub i) (ef.sources.foldl (removeSub i) rt)) i
            (some (evalComp (ef.sources.foldl (removeSub i) rt) (ef.body ef.prev)).1)
            (evalComp (ef.sources.foldl (removeSub i) rt) (ef.body ef.prev)).2) ch = true := by
          rw [chanClosed_eq_entry, chanEntry_congr (setEffPS_channels _ _ _ _),
            chanEntry_congr (foldl_subsop_channels (addSub_isSubsOp i) _ _),
            chanEntry_congr (foldl_subsop_channels (removeSub_isSubsOp i) _ _),
            ← chanClosed_eq_entry]
          exact h
        rw [chanSend_entry_pres _ hc3, chanEntry_congr (setEffPS_channels _ _ _ _),
          chanEntry_congr (foldl_subsop_channels (addSub_isSubsOp i) _ _),
          chanEntry_congr (foldl_subsop_channels (removeSub_isSubsOp i) _ _)]
      · rw [chanEntry_congr (setEffPS_channels _ _ _ _),
          chanEntry_congr (foldl_subsop_channels (addSub_isSubsOp i) _ _),
          chanEntry_congr (foldl_subsop_channels (removeSub_isSubsOp i) _ _)]
    · rfl
  · rfl

/-! ### Properties of the propagation drain -/

theorem drain_cons_mem [Inhabited V] [DecidableEq V] {fuel : Nat} {rt : Runtime V}
    {i : NodeId} {rest ran : List NodeId} (h : i ∈ ran) :
    drain (fuel + 1) rt (i :: rest) ran = drain fuel rt rest ran := by
  simp [drain, h]

theorem drain_cons_not_mem [Inhabited V] [DecidableEq V] {fuel : Nat} {rt : Runtime V}
    {i : NodeId} {rest ran : List NodeId} (h : i ∉ ran) :
    drain (fuel + 1) rt (i :: rest) ran =
      drain fuel (runNode rt i).1 (rest ++ (runNode rt i).2) (i :: ran) := by
  simp [drain, h]

theorem drain_count [Inhabited V] [DecidableEq V] (M : NodeId) :
    ∀ (fuel : Nat) (q ran : List NodeId) (rt : Runtime V),
      ((drain fuel rt q ran).runLog.count M) ≤
        rt.runLog.count M + (if M ∈ ran then 0 else 1) := by
  intro fuel
  induction fuel with
  | zero =>
    intro q ran rt
    exact Nat.le_add_right _ _
  | succ fuel ih =>
    intro q ran rt
    cases q with
    | nil => exact Nat.le_add_right _ _
    | cons i rest =>
      by_cases hmem : i ∈ ran
      · rw [drain_cons_mem hmem]
        exact ih rest ran rt
      · rw [drain_cons_not_mem hmem]
        have hstep : ((runNode rt i).1.runLog.count M) ≤
            rt.runLog.count M + (if i = M then 1 else 0) := by
          rcases runNode_runLog rt i with hh | hh
          · rw [hh]
            exact Nat.le_add_right _ _
          · rw [hh, List.count_append]
            have hsing : List.count M [i] = if i = M then 1 else 0 := by
              simp [List.count_cons, List.count_nil]
            omega
        have hrec := ih (rest ++ (runNode rt i).2) (i :: ran) (runNode rt i).1
        rcases eq_or_ne M i with rfl | hMi
        · rw [if_pos (List.mem_cons_self M ran)] at hrec
          rw [if_neg hmem]
          rw [if_pos rfl] at hstep
          omega
        · rw [if_neg (fun hh => hMi hh.symm)] at hstep
          by_cases hMran : M ∈ ran
          · rw [if_pos (List.mem_cons_of_mem i hMran)] at hrec
            rw [if_pos hMran]
            omega
          · rw [if_neg (fun hh => by
              rcases List.mem_cons.mp hh with h1 | h1
              · exact hMi h1
              · exact hMran h1)] at hrec
            rw [if_neg hMran]
            omega

theorem drain_unsubscribed [Inhabited V] [DecidableEq V] (x : NodeId) :
    ∀ (fuel : Nat) (q ran : List NodeId) (rt : Runtime V),
      (∀ n, x ∉ subsOf rt n) → x ∉ q → x ∉ rt.runLog →
      x ∉ (drain fuel rt q ran).runLog := by
  intro fuel
  induction fuel with
  | zero =>
    intro q ran rt _ _ h3
    exact h3
  | succ fuel ih =>
    intro q ran rt h1 h2 h3
    cases q with
    | nil => exact h3
    | cons i rest =>
      have hxi : x ≠ i := fun hh => h2 (hh ▸ List.mem_cons_self i rest)
      have hxrest : x ∉ rest := fun hh => h2 (List.mem_cons_of_mem i hh)
      by_cases hmem : i ∈ ran
      · rw [drain_cons_mem hmem]
        exact ih rest ran rt h1 hxrest h3
      · rw [drain_cons_not_mem hmem]
        apply ih
        · intro n hn
          exact h1 n (runNode_subs_mem hxi hn)
        · intro hn
          rcases List.mem_append.mp hn with hn | hn
          · exact hxrest hn
          · exact h1 i (runNode_notif_mem hxi hn)
        · intro hn
          rcases runNode_runLog rt i with hh | hh
          · rw [hh] at hn
            exact h3 hn
          · rw [hh] at hn
            rcases List.mem_append.mp hn with hn | hn
            · exact h3 hn
            · exact hxi (List.mem_singleton.mp hn)

theorem drain_suppressed [Inhabited V] [DecidableEq V] (x M : NodeId)
    (f : Option V → Comp V) (c : V)
    (hf : ∀ rt' : Runtime V, (evalComp rt' (f (some c))).1 = c) :
    ∀ (fuel : Nat) (q ran : List NodeId) (rt : Runtime V),
      memoCV rt M f c → subsOnlyOf rt x M → x ∉ q → x ∉ rt.runLog →
      x ∉ (drain fuel rt q ran).runLog := by
  intro fuel
  induction fuel with
  | zero =>
    intro q ran rt _ _ _ h4
    exact h4
  | succ fuel ih =>
    intro q ran rt hcv hso h2 h3
    cases q with
    | nil => exact h3
    | cons i rest =>
      have hxi : x ≠ i := fun hh => h2 (hh ▸ List.mem_cons_self i rest)
      have hxrest : x ∉ rest := fun hh => h2 (List.mem_cons_of_mem i hh)
      by_cases hmem : i ∈ ran
      · rw [drain_cons_mem hmem]
        exact ih rest ran rt hcv hso hxrest h3
      · rw [drain_cons_not_mem hmem]
        have hcv2 : memoCV (runNode rt i).1 M f c := by
          rcases eq_or_ne i M with rfl | hiM
          · exact (runNode_memoCV hcv hf).2
          · obtain ⟨m, hp, hcomp, hval⟩ := hcv
            refine ⟨m, ?_, hcomp, hval⟩
            rw [runNode_payload_ne (Ne.symm hiM)]
            exact hp
        have hso2 : subsOnlyOf (runNode rt i).1 x M :=
          fun n hn => hso n (runNode_subs_mem hxi hn)
        have hq2 : x ∉ rest ++ (runNode rt i).2 := by
          intro hn
          rcases List.mem_append.mp hn with hn | hn
          · exact hxrest hn
          · rcases eq_or_ne i M with rfl | hiM
            · rw [(runNode_memoCV hcv hf).1] at hn
              simp at hn
            · exact hiM (hso i (runNode_notif_mem hxi hn))
        have h3' : x ∉ (runNode rt i).1.runLog := by
          intro hn
          rcases runNode_runLog rt i with hh | hh
          · rw [hh] at hn
            exact h3 hn
          · rw [hh] at hn
            rcases List.mem_append.mp hn with hn | hn
            · exact h3 hn
            · exact hxi (List.mem_singleton.mp hn)
        exact ih _ _ _ hcv2 hso2 hq2 h3'

theorem drain_storageSome [Inhabited V] [DecidableEq V] :
    ∀ (fuel : Nat) (q ran : List NodeId) (rt : Runtime V),
      storageSome rt → storageSome (drain fuel rt q ran) := by
  intro fuel
  induction fuel with
  | zero =>
    intro q ran rt h
    exact h
  | succ fuel ih =>
    intro q ran rt h
    cases q with
    | nil => exact h
    | cons i rest =>
      by_cases hmem : i ∈ ran
      · rw [drain_cons_mem hmem]
        exact ih rest ran rt h
      · rw [drain_cons_not_mem hmem]
        exact ih _ _ _ (runNode_storageSome i h)

theorem drain_chanEntry_closed [Inhabited V] [DecidableEq V] {ch : ChannelId} :
    ∀ (fuel : Nat) (q ran : List NodeId) (rt : Runtime V),
      chanClosed rt ch = true →
      chanEntry (drain fuel rt q ran) ch = chanEntry rt ch := by
  intro fuel
  induction fuel with
  | zero =>
    intro q ran rt _
    rfl
  | succ fuel ih =>
    intro q ran rt h
    cases q with
    | nil => rfl
    | cons i rest =>
      by_cases hmem : i ∈ ran
      · rw [drain_cons_mem hmem]
        exact ih rest ran rt h
      · rw [drain_cons_not_mem hmem]
        have hstep := @runNode_chanEntry_closed V _ _ rt ch i h
        have hcl2 : chanClosed (runNode rt i).1 ch = true := by
          rw [chanClosed_eq_entry, hstep, ← chanClosed_eq_entry]
          exact h
        rw [ih _ _ _ hcl2, hstep]

theorem writeSignal_eq [Inhabited V] [DecidableEq V] (rt : Runtime V) (i : NodeId)
    (v : V) :
    writeSignal rt i v =
      if nodeLive rt i then
        drain (fuelFor (setSignalValue rt i v)) (setSignalValue rt i v)
          (subsOf (setSignalValue rt i v) i) []
      else rt := rfl

/-! ### Facts about node allocation, `createMemo`, `createEffect`, `dispose` -/

theorem payload_append_self (rt : Runtime V) (entry : NodeEntry V) (rl : List NodeId) :
    nodePayload { rt with nodes := rt.nodes ++ [entry], runLog := rl }
      rt.nodes.length = some entry.node := by
  unfold nodePayload
  show ((rt.nodes ++ [entry])[rt.nodes.length]?).map _ = _
  rw [List.getElem?_concat_length]
  rfl

theorem payload_append_lt (rt : Runtime V) (entry : NodeEntry V) (rl : List NodeId)
    {j : NodeId} (hj : j < rt.nodes.length) :
    nodePayload { rt with nodes := rt.nodes ++ [entry], runLog := rl } j =
      nodePayload rt j := by
  unfold nodePayload
  show ((rt.nodes ++ [entry])[j]?).map _ = _
  rw [get?_append_sing, if_pos hj]

theorem payload_append_gt (rt : Runtime V) (entry : NodeEntry V) (rl : List NodeId)
    {j : NodeId} (hj : rt.nodes.length < j) :
    nodePayload { rt with nodes := rt.nodes ++ [entry], runLog := rl } j = none := by
  unfold nodePayload
  show ((rt.nodes ++ [entry])[j]?).map _ = _
  rw [get?_append_sing, if_neg (by omega), if_neg (by omega)]
  rfl

theorem owner_append_self (rt : Runtime V) (entry : NodeEntry V) (rl : List NodeId) :
    nodeOwner { rt with nodes := rt.nodes ++ [entry], runLog := rl }
      rt.nodes.length = some entry.owner := by
  unfold nodeOwner
  show ((rt.nodes ++ [entry])[rt.nodes.length]?).map _ = _
  rw [List.getElem?_concat_length]
  rfl

theorem subsOf_append_lt (rt : Runtime V) (entry : NodeEntry V) (rl : List NodeId)
    {j : NodeId} (hj : j < rt.nodes.length) :
    subsOf { rt with nodes := rt.nodes ++ [entry], runLog := rl } j = subsOf rt j := by
  rw [subsOf_map, subsOf_map]
  show (((rt.nodes ++ [entry])[j]?).map _).getD [] = _
  rw [get?_append_sing, if_pos hj]

theorem subsOf_append_self (rt : Runtime V) (entry : NodeEntry V) (rl : List NodeId) :
    subsOf { rt with nodes := rt.nodes ++ [entry], runLog := rl }
      rt.nodes.length = entry.subscribers := by
  rw [subsOf_map]
  show (((rt.nodes ++ [entry])[rt.nodes.length]?).map _).getD [] = _
  rw [List.getElem?_concat_length]
  rfl

theorem subsOf_append_gt (rt : Runtime V) (entry : NodeEntry V) (rl : List NodeId)
    {j : NodeId} (hj : rt.nodes.length < j) :
    subsOf { rt with nodes := rt.nodes ++ [entry], runLog := rl } j = [] := by
  rw [subsOf_map]
  show (((rt.nodes ++ [entry])[j]?).map _).getD [] = _
  rw [get?_append_sing, if_neg (by omega), if_neg (by omega)]
  rfl

theorem createMemo_id [Inhabited V] [DecidableEq V] (rt : Runtime V) (sc : ScopeId)
    (f : Option V → Comp V) : (createMemo rt sc f).2.id = rt.nodes.length := rfl

theorem createMemo_payload [Inhabited V] [DecidableEq V] (rt : Runtime V) (sc : ScopeId)
    (f : Option V → Comp V) :
    nodePayload (createMemo rt sc f).1 rt.nodes.length =
      some (.memo { compute := f, value := some (evalComp rt (f none)).1,
                    sources := (evalComp rt (f none)).2 }) := by
  simp only [createMemo]
  rw [foldl_subsop_payload (addSub_isSubsOp _) _]
  exact payload_append_self rt _ _

theorem createMemo_payload_lt [Inhabited V] [DecidableEq V] (rt : Runtime V)
    (sc : ScopeId) (f : Option V → Comp V) {j : NodeId} (hj : j < rt.nodes.length) :
    nodePayload (createMemo rt sc f).1 j = nodePayload rt j := by
  simp only [createMemo]
  rw [foldl_subsop_payload (addSub_isSubsOp _) _]
  exact payload_append_lt rt _ _ hj

theorem createMemo_payload_gt [Inhabited V] [DecidableEq V] (rt : Runtime V)
    (sc : ScopeId) (f : Option V → Comp V) {j : NodeId} (hj : rt.nodes.length < j) :
    nodePayload (createMemo rt sc f).1 j = none := by
  simp only [createMemo]
  rw [foldl_subsop_payload (addSub_isSubsOp _) _]
  exact payload_append_gt rt _ _ hj

theorem createMemo_runLog [Inhabited V] [DecidableEq V] (rt : Runtime V) (sc : ScopeId)
    (f : Option V → Comp V) :
    (createMemo rt sc f).1.runLog = rt.runLog ++ [rt.nodes.length] := by
  simp only [createMemo]
  rw [foldl_subsop_runLog (addSub_isSubsOp _)]

theorem createMemo_scopes [Inhabited V] [DecidableEq V] (rt : Runtime V) (sc : ScopeId)
    (f : Option V → Comp V) : (createMemo rt sc f).1.scopes = rt.scopes := by
  simp only [createMemo]
  rw [foldl_subsop_scopes (addSub_isSubsOp _)]

theorem createMemo_owner [Inhabited V] [DecidableEq V] (rt : Runtime V) (sc : ScopeId)
    (f : Option V → Comp V) :
    nodeOwner (createMemo rt sc f).1 rt.nodes.length = some sc := by
  simp only [createMemo]
  rw [foldl_subsop_owner (addSub_isSubsOp _) _]
  exact owner_append_self rt _ _

theorem createMemo_live [Inhabited V] [DecidableEq V] (rt : Runtime V) (sc : ScopeId)
    (f : Option V → Comp V) :
    nodeLive (createMemo rt sc f).1 rt.nodes.length = scopeLive rt sc := by
  unfold nodeLive
  rw [createMemo_owner]
  exact scopeLive_congr (createMemo_scopes rt sc f) sc

theorem createEffect_id [Inhabited V] [DecidableEq V] (rt : Runtime V) (sc : ScopeId)
    (body : Option V → Comp V) (sendTo : Option ChannelId) :
    (createEffect rt sc body sendTo).2 = rt.nodes.length := by
  simp only [createEffect]
  split <;> rfl

theorem createEffect_nodes_parts [Inhabited V] [DecidableEq V] (rt : Runtime V)
    (sc : ScopeId) (body : Option V → Comp V) (ch : ChannelId) :
    nodePayload (createEffect rt sc body (some ch)).1 rt.nodes.length =
      some (.eff { body := body, prev := some (evalComp rt (body none)).1,
                   sources := (evalComp rt (body none)).2, sendTo := some ch }) ∧
    nodeOwner (createEffect rt sc body (some ch)).1 rt.nodes.length = some sc ∧
    (createEffect rt sc body (some ch)).1.scopes = rt.scopes := by
  refine ⟨?_, ?_, ?_⟩
  · simp only [createEffect]
    rw [chanSend_payload, foldl_subsop_payload (addSub_isSubsOp _) _]
    exact payload_append_self rt _ _
  · simp only [createEffect]
    rw [nodeOwner_congr_nodes (chanSend_nodes _ _ _),
      foldl_subsop_owner (addSub_isSubsOp _) _]
    exact owner_append_self rt _ _
  · simp only [createEffect]
    rw [chanSend_scopes, foldl_subsop_scopes (addSub_isSubsOp _)]

theorem foldl_runCleanup_scopes (L : List CleanupAct) (g : Runtime V) :
    (L.foldl runCleanup g).scopes = g.scopes :=
  foldl_proj_eq runCleanup (fun rt => rt.scopes) (fun g c => runCleanup_scopes g c) L g

theorem foldl_runCleanup_nodes (L : List CleanupAct) (g : Runtime V) :
    (L.foldl runCleanup g).nodes = g.nodes :=
  foldl_proj_eq runCleanup (fun rt => rt.nodes) (fun g c => runCleanup_nodes g c) L g

theorem foldl_runCleanup_cleanupLog :
    ∀ (L : List CleanupAct) (g : Runtime V),
      (L.foldl runCleanup g).cleanupLog = g.cleanupLog ++ marksOf L := by
  intro L
  induction L with
  | nil =>
    intro g
    simp [marksOf]
  | cons c L ih =>
    intro g
    rw [List.foldl_cons, ih]
    cases c with
    | closeChannel ch =>
      rw [runCleanup_cleanupLog_close]
      simp [marksOf]
    | mark k =>
      rw [runCleanup_cleanupLog_mark]
      simp [marksOf]

theorem foldl_runCleanup_closed_stable :
    ∀ (L : List CleanupAct) (g : Runtime V) {ch : ChannelId},
      chanClosed g ch = true → chanClosed (L.foldl runCleanup g) ch = true := by
  intro L
  induction L with
  | nil =>
    intro g ch h
    exact h
  | cons c L ih =>
    intro g ch h
    rw [List.foldl_cons]
    exact ih _ (runCleanup_chanClosed_stable c h)

theorem foldl_runCleanup_closes :
    ∀ (L : List CleanupAct) (g : Runtime V) (ch : ChannelId),
      (chanEntry g ch).isSome = true → CleanupAct.closeChannel ch ∈ L →
      chanClosed (L.foldl runCleanup g) ch = true := by
  intro L
  induction L with
  | nil =>
    intro g ch _ hmem
    simp at hmem
  | cons c L ih =>
    intro g ch hsome hmem
    rw [List.foldl_cons]
    rcases List.mem_cons.mp hmem with heqc | hmem2
    · subst heqc
      exact foldl_runCleanup_closed_stable L _ (runCleanup_closes hsome)
    · exact ih (runCleanup g c) ch (runCleanup_chan_isSome c hsome) hmem2

theorem dispose_childless_eq {rt : Runtime V} {sc : ScopeId} {s0 : ScopeEntry}
    (hs : rt.scopes[sc]? = some s0) (hnd : s0.disposed = false)
    (hch : s0.children = []) :
    dispose rt sc =
      { s0.cleanups.reverse.foldl runCleanup rt with
          scopes := (s0.cleanups.reverse.foldl runCleanup rt).scopes.set sc
            { s0 with disposed := true } } := by
  unfold dispose
  show disposeGo (rt.scopes.length + 1) rt sc = _
  simp only [disposeGo]
  rw [hs]
  simp only [hnd, Bool.false_eq_true, if_false, hch, List.foldl_nil]
  have h2 : (s0.cleanups.reverse.foldl runCleanup rt).scopes[sc]? = some s0 := by
    rw [foldl_runCleanup_scopes]
    exact hs
  rw [h2]
  simp [hch]

theorem dispose_nodes (rt : Runtime V) (sc : ScopeId) :
    (dispose rt sc).nodes = rt.nodes := by
  unfold dispose
  generalize rt.scopes.length + 1 = fuel
  induction fuel generalizing rt sc with
  | zero => rfl
  | succ fuel ih =>
    show (disposeGo (fuel + 1) rt sc).nodes = rt.nodes
    simp only [disposeGo]
    split
    · rfl
    · next s heq =>
      split
      · rfl
      · have h1 : ∀ (L : List ScopeId) (g : Runtime V),
            (L.foldl (disposeGo fuel) g).nodes = g.nodes :=
          fun L g => foldl_proj_eq (disposeGo fuel) (fun rt => rt.nodes)
            (fun g a => ih g a) L g
        split
        · next s2 heq2 =>
          show (s.cleanups.reverse.foldl runCleanup
            (s.children.foldl (disposeGo fuel) rt)).nodes = rt.nodes
          rw [foldl_runCleanup_nodes, h1]
        · show (s.cleanups.reverse.foldl runCleanup
            (s.children.foldl (disposeGo fuel) rt)).nodes = rt.nodes
          rw [foldl_runCleanup_nodes, h1]

/-! ### Remaining support lemmas -/

theorem payload_of_memoStored {rt : Runtime V} {i : NodeId} {mv : Option V}
    (h : memoStored rt i = some mv) :
    ∃ mn : MemoNode V, nodePayload rt i = some (.memo mn) ∧ mn.value = mv := by
  unfold memoStored at h
  split at h
  · next mn heq => exact ⟨mn, heq, Option.some.inj h⟩
  · exact absurd h (by simp)

theorem neverTracks_reads [Inhabited V] (s : NodeId) :
    ∀ c : Comp V, neverTracks s c → ∀ rt : Runtime V, s ∉ (evalComp rt c).2 := by
  intro c
  induction c with
  | ret v =>
    intro _ rt
    simp [evalComp]
  | read src k ih =>
    intro h rt
    simp only [evalComp]
    intro hmem
    rcases List.mem_cons.mp hmem with heq | hmem2
    · exact h.1 heq.symm
    · exact ih _ (h.2 _) rt hmem2
  | readUntracked src k ih =>
    intro h rt
    exact ih _ (h _) rt

theorem dispose_of_disposed {rt : Runtime V} {sc : ScopeId} {s1 : ScopeEntry}
    (hs : rt.scopes[sc]? = some s1) (hd : s1.disposed = true) :
    dispose rt sc = rt := by
  unfold dispose
  show disposeGo (rt.scopes.length + 1) rt sc = rt
  simp only [disposeGo]
  rw [hs]
  simp [hd]

theorem toStream_chanId [Inhabited V] [DecidableEq V] (rt : Runtime V) (m : Memo V)
    (sc : ScopeId) : (toStream rt m sc).2.1 = rt.channels.length := rfl

theorem toStream_effId [Inhabited V] [DecidableEq V] (rt : Runtime V) (m : Memo V)
    (sc : ScopeId) : (toStream rt m sc).2.2 = rt.nodes.length := by
  show (createEffect (onCleanup _ sc _) sc _ _).2 = rt.nodes.length
  rw [createEffect_id, onCleanup_nodes]

theorem payload_lt_of_ne_none {rt : Runtime V} {s : NodeId}
    (h : nodePayload rt s ≠ none) : s < rt.nodes.length := by
  unfold nodePayload at h
  cases heq : rt.nodes[s]? with
  | none =>
    rw [heq] at h
    exact absurd rfl h
  | some e =>
    exact (List.getElem?_eq_some.mp heq).1

theorem createEffect_chanLen [Inhabited V] [DecidableEq V] (rt : Runtime V)
    (sc : ScopeId) (body : Option V → Comp V) (st : Option ChannelId) :
    (createEffect rt sc body st).1.channels.length = rt.channels.length := by
  simp only [createEffect]
  split
  · rw [chanSend_len, foldl_subsop_channels (addSub_isSubsOp _)]
  · rw [foldl_subsop_channels (addSub_isSubsOp _)]

theorem createEffect_nodesLen [Inhabited V] [DecidableEq V] (rt : Runtime V)
    (sc : ScopeId) (body : Option V → Comp V) (st : Option ChannelId) :
    (createEffect rt sc body st).1.nodes.length = rt.nodes.length + 1 := by
  simp only [createEffect]
  split
  · rw [chanSend_nodes, foldl_subsop_len (addSub_isSubsOp _)]
    show (rt.nodes ++ [_]).length = rt.nodes.length + 1
    simp
  · rw [foldl_subsop_len (addSub_isSubsOp _)]
    show (rt.nodes ++ [_]).length = rt.nodes.length + 1
    simp

theorem createEffect_chanEntry [Inhabited V] [DecidableEq V] (rt : Runtime V)
    (sc : ScopeId) (body : Option V → Comp V) (ch : ChannelId) (cc : Channel V)
    (hch : rt.channels[ch]? = some cc) (hopen : cc.closed = false) :
    chanEntry (createEffect rt sc body (some ch)).1 ch =
      some { cc with buffer := cc.buffer ++ [(evalComp rt (body none)).1] } := by
  simp only [createEffect]
  have hchans : ((evalComp rt (body none)).2.foldl (addSub rt.nodes.length)
      { rt with
        nodes := rt.nodes ++
          [ { node := .eff
                { body := body, prev := some (evalComp rt (body none)).1,
                  sources := (evalComp rt (body none)).2, sendTo := some ch },
              subscribers := [], owner := sc } ],
        runLog := rt.runLog ++ [rt.nodes.length] }).channels = rt.channels := by
    rw [foldl_subsop_channels (addSub_isSubsOp _)]
  unfold chanSend
  rw [hchans, hch]
  simp only [hopen, Bool.false_eq_true, if_false]
  unfold chanEntry
  obtain ⟨hlt, -⟩ := List.getElem?_eq_some.mp hch
  show (rt.channels.set ch _)[ch]? = _
  rw [List.getElem?_set_self hlt]

theorem createEffect_subscribes [Inhabited V] [DecidableEq V] (rt : Runtime V)
    (sc : ScopeId) (body : Option V → Comp V) (ch : ChannelId) (s : NodeId)
    (hres : (evalComp rt (body none)).2 = [s])
    (hpay : nodePayload rt s ≠ none) :
    rt.nodes.length ∈ subsOf (createEffect rt sc body (some ch)).1 s := by
  simp only [createEffect]
  rw [chanSend_subsOf, hres]
  show rt.nodes.length ∈ subsOf (addSub rt.nodes.length _ s) s
  apply addSub_mem_self
  rw [payload_append_lt rt _ _ (payload_lt_of_ne_none hpay)]
  exact hpay

/-! ### Claim theorems -/

/-- C2: for any runtime and any signal write, each node's computation
runs at most once in the propagation pass driven by that write: the run
log of the pass contains any given node id at most once, no matter how
many dependency paths lead to it. -/
theorem memo_at_most_once (V : Type) [Inhabited V] [DecidableEq V] (rt : Runtime V)
    (s M : NodeId) (v : V) (h : rt.runLog = []) :
    ((writeSignal rt s v).runLog.count M) ≤ 1 := by
  rw [writeSignal_eq]
  split
  · have hd := drain_count M (fuelFor (setSignalValue rt s v))
      (subsOf (setSignalValue rt s v) s) [] (setSignalValue rt s v)
    rw [setSignalValue_runLog, h] at hd
    simpa using hd
  · rw [h]
    simp

/-- Witness for C2: one write into the concrete runtime `rtA` runs
memo 1 at most once. -/
theorem memo_at_most_once_witness :
    ((writeSignal rtA 0 9).runLog.count 1) ≤ 1 :=
  memo_at_most_once Nat rtA 0 1 9 rfl

/-- C3: `createMemo` evaluates the computation with `none` exactly once,
immediately, and stores the result (the pass log grows by exactly the new
node's id); a `get` directly afterwards returns the stored value without
any further run, and `try_get` is never absent for the live fresh memo. -/
theorem createMemo_eager (V : Type) [Inhabited V] [DecidableEq V] (rt : Runtime V)
    (sc : ScopeId) (f : Option V → Comp V) (hsc : scopeLive rt sc = true) :
    (createMemo rt sc f).1.runLog = rt.runLog ++ [(createMemo rt sc f).2.id] ∧
    memoStored (createMemo rt sc f).1 (createMemo rt sc f).2.id =
      some (some (evalComp rt (f none)).1) ∧
    Memo.get (createMemo rt sc f).1 (createMemo rt sc f).2 =
      some (evalComp rt (f none)).1 ∧
    Memo.tryGet (createMemo rt sc f).1 (createMemo rt sc f).2 =
      some (evalComp rt (f none)).1 ∧
    Memo.tryGet (createMemo rt sc f).1 (createMemo rt sc f).2 ≠ none := by
  have hid : (createMemo rt sc f).2.id = rt.nodes.length := createMemo_id rt sc f
  have hraw : Memo.rawRead (createMemo rt sc f).1 (createMemo rt sc f).2 =
      some (some (evalComp rt (f none)).1) := by
    unfold Memo.rawRead
    rw [hid, createMemo_live, hsc, createMemo_payload]
    rfl
  refine ⟨?_, ?_, ?_, ?_, ?_⟩
  · rw [hid]
    exact createMemo_runLog rt sc f
  · rw [hid]
    exact memoStored_of_payload (createMemo_payload rt sc f)
  · unfold Memo.get
    rw [hraw]
    rfl
  · unfold Memo.tryGet
    rw [hraw]
    rfl
  · unfold Memo.tryGet
    rw [hraw]
    simp

/-- Witness for C3: a fresh memo over `rtA` immediately yields its value. -/
theorem createMemo_eager_witness :
    Memo.tryGet (createMemo rtA 0 (fun _ => Comp.ret 4)).1
      (createMemo rtA 0 (fun _ => Comp.ret 4)).2 = some 4 :=
  (createMemo_eager Nat rtA 0 (fun _ => Comp.ret 4) rfl).2.2.2.1

/-- C5: the `try_*` readers return an absent result instead of failing on
a handle whose owning scope has been disposed, and agree with the plain
readers on a live handle. -/
theorem memo_try_family (V : Type) (rt : Runtime V) (m : Memo V) :
    (nodeLive rt m.id = false →
      Memo.tryGet rt m = none ∧ Memo.tryGetUntracked rt m = none ∧
      ∀ (O : Type) (g : V → O), Memo.tryWithFn rt m g = none) ∧
    (nodeLive rt m.id = true →
      Memo.tryGet rt m = Memo.get rt m ∧
      Memo.tryGetUntracked rt m = Memo.getUntracked rt m ∧
      ∀ (O : Type) (g : V → O), Memo.tryWithFn rt m g = Memo.withFn rt m g) := by
  constructor
  · intro hdead
    have hraw : Memo.rawRead rt m = none := by
      unfold Memo.rawRead
      rw [hdead]
      simp
    refine ⟨?_, ?_, ?_⟩
    · unfold Memo.tryGet
      rw [hraw]
      rfl
    · unfold Memo.tryGetUntracked
      rw [hraw]
      rfl
    · intro O g
      unfold Memo.tryWithFn
      rw [hraw]
      rfl
  · intro _
    exact ⟨rfl, rfl, fun O g => rfl⟩

/-- Witness for C5: absent on the disposed runtime `rtD`, agreeing with
`get` on the live runtime `rtA`. -/
theorem memo_try_family_witness :
    Memo.tryGet rtD ⟨1⟩ = none ∧ Memo.tryGet rtA ⟨1⟩ = Memo.get rtA ⟨1⟩ :=
  ⟨((memo_try_family Nat rtD ⟨1⟩).1 rfl).1, ((memo_try_family Nat rtA ⟨1⟩).2 rfl).1⟩

/-- C10: a `Memo` handle is copied by `clone` for any value type, with no
clone requirement on the values; the copy is the same handle, so every
reader observes the identical state through it. -/
theorem memo_handle_copy (V : Type) :
    (∀ (T : Type) (m : Memo T), Memo.clone m = m) ∧
    (∀ (rt : Runtime V) (m : Memo V),
      Memo.get rt (Memo.clone m) = Memo.get rt m ∧
      Memo.getUntracked rt (Memo.clone m) = Memo.getUntracked rt m ∧
      Memo.tryGet rt (Memo.clone m) = Memo.tryGet rt m ∧
      ∀ (O : Type) (g : V → O),
        Memo.withFn rt (Memo.clone m) g = Memo.withFn rt m g) := by
  constructor
  · intro T m
    rfl
  · intro rt m
    exact ⟨rfl, rfl, rfl, fun O g => rfl⟩

/-- C4: every memo's optional storage stays non-absent across writes,
memo creation and disposal, and under that invariant the unwrap inside
`get`, `get_untracked`, `with` and `with_untracked` cannot fail on a
live memo: the panic branch (modelled as `none`) is unreachable. -/
theorem memo_unwrap_safe (V : Type) [Inhabited V] [DecidableEq V] :
    (∀ (rt : Runtime V) (s : NodeId) (v : V),
      storageSome rt → storageSome (writeSignal rt s v)) ∧
    (∀ (rt : Runtime V) (sc : ScopeId) (f : Option V → Comp V),
      storageSome rt → storageSome (createMemo rt sc f).1) ∧
    (∀ (rt : Runtime V) (sc : ScopeId),
      storageSome rt → storageSome (dispose rt sc)) ∧
    (∀ (rt : Runtime V) (m : Memo V) (mv : Option V),
      storageSome rt → nodeLive rt m.id = true → memoStored rt m.id = some mv →
      (Memo.get rt m).isSome = true ∧ (Memo.getUntracked rt m).isSome = true ∧
      ∀ (O : Type) (g : V → O),
        (Memo.withFn rt m g).isSome = true ∧
          (Memo.withUntrackedFn rt m g).isSome = true) := by
  refine ⟨?_, ?_, ?_, ?_⟩
  · intro rt s v h
    rw [writeSignal_eq]
    split
    · apply drain_storageSome
      intro j
      rcases setSignalValue_memoStored rt s v j with hh | hh
      · rw [hh]
        exact h j
      · rw [hh]
        simp
    · exact h
  · intro rt sc f h j
    by_cases h1 : j < rt.nodes.length
    · rw [memoStored_congr (createMemo_payload_lt rt sc f h1)]
      exact h j
    · rcases eq_or_ne j rt.nodes.length with rfl | h2
      · rw [memoStored_of_payload (createMemo_payload rt sc f)]
        simp
      · have h3 : rt.nodes.length < j :=
          Nat.lt_of_le_of_ne (Nat.le_of_not_lt h1) (Ne.symm h2)
        rw [show memoStored (createMemo rt sc f).1 j = none from by
          unfold memoStored
          rw [createMemo_payload_gt rt sc f h3]]
        simp
  · intro rt sc h j
    rw [memoStored_congr (nodePayload_congr_nodes (dispose_nodes rt sc) j)]
    exact h j
  · intro rt m mv h hlive hst
    have hmv : mv ≠ none := fun hh => h m.id (by rw [hst, hh])
    obtain ⟨mn, hp, hv⟩ := payload_of_memoStored hst
    obtain ⟨w, hw⟩ : ∃ w, mv = some w := by
      cases mv with
      | none => exact absurd rfl hmv
      | some w => exact ⟨w, rfl⟩
    have hraw : Memo.rawRead rt m = some (some w) := by
      unfold Memo.rawRead
      rw [hlive]
      simp [hp, hv, hw]
    refine ⟨?_, ?_, ?_⟩
    · unfold Memo.get
      rw [hraw]
      rfl
    · unfold Memo.getUntracked
      rw [hraw]
      rfl
    · intro O g
      constructor
      · unfold Memo.withFn
        rw [hraw]
        rfl
      · unfold Memo.withUntrackedFn
        rw [hraw]
        rfl

/-- Witness for C4: the invariant is checked on the concrete runtime
`rtA` and the accessors all succeed on its memo. -/
theorem memo_unwrap_safe_witness :
    storageSome (writeSignal rtA 0 9) ∧ (Memo.get rtA ⟨1⟩).isSome = true := by
  have hst : storageSome rtA := storageSome_of_bounded (by decide)
  exact ⟨(memo_unwrap_safe Nat).1 rtA 0 9 hst,
    ((memo_unwrap_safe Nat).2.2.2 rtA ⟨1⟩ (some 5) hst rfl rfl).1⟩

/-- C9: an effect whose channel has already been closed still runs to
completion when notified: the send result is discarded (the channel and
the rest of the runtime's channel state are untouched), the run is
logged, nothing is notified, and the effect node survives intact (same
body and channel), so it will run again on the next notification. -/
theorem effect_send_discarded (V : Type) [Inhabited V] [DecidableEq V] (rt : Runtime V)
    (i : NodeId) (ef : EffectNode V) (ch : ChannelId)
    (hlive : nodeLive rt i = true) (hp : nodePayload rt i = some (.eff ef))
    (hsend : ef.sendTo = some ch) (hcl : chanClosed rt ch = true) :
    (runNode rt i).1.channels = rt.channels ∧
    (runNode rt i).1.runLog = rt.runLog ++ [i] ∧
    (runNode rt i).2 = [] ∧
    (∃ ef2 : EffectNode V, nodePayload (runNode rt i).1 i = some (.eff ef2) ∧
      ef2.body = ef.body ∧ ef2.sendTo = ef.sendTo ∧ (ef2.prev).isSome = true) := by
  unfold runNode
  split
  · split
    · next m heq =>
      rw [hp] at heq
      simp at heq
    · next ef2 heq =>
      have hef : ef2 = ef := by
        have h1 : some (Node.eff ef) = some (Node.eff ef2) := hp.symm.trans heq
        have h2 := Option.some.inj h1
        cases h2
        rfl
      subst hef
      have hp2 : nodePayload
          ((evalComp (ef2.sources.foldl (removeSub i) rt) (ef2.body ef2.prev)).2.foldl
            (addSub i) (ef2.sources.foldl (removeSub i) rt)) i = some (.eff ef2) := by
        rw [foldl_subsop_payload (addSub_isSubsOp i) i,
          foldl_subsop_payload (removeSub_isSubsOp i) i]
        exact heq
      have hclset : chanClosed (setEffPS
          ((evalComp (ef2.sources.foldl (removeSub i) rt) (ef2.body ef2.prev)).2.foldl
            (addSub i) (ef2.sources.foldl (removeSub i) rt)) i
          (some (evalComp (ef2.sources.foldl (removeSub i) rt) (ef2.body ef2.prev)).1)
          (evalComp (ef2.sources.foldl (removeSub i) rt) (ef2.body ef2.prev)).2) ch =
          true := by
        rw [chanClosed_eq_entry, chanEntry_congr (setEffPS_channels _ _ _ _),
          chanEntry_congr (foldl_subsop_channels (addSub_isSubsOp i) _ _),
          chanEntry_congr (foldl_subsop_channels (removeSub_isSubsOp i) _ _),
          ← chanClosed_eq_entry]
        exact hcl
      refine ⟨?_, ?_, ?_, ?_⟩
      · simp only []
        split
        · next ch2 hch2 =>
          have hcc : ch2 = ch := Option.some.inj (hch2.symm.trans hsend)
          subst hcc
          rw [addRun_channels, chanSend_of_closed _ hclset, setEffPS_channels,
            foldl_subsop_channels (addSub_isSubsOp i), foldl_subsop_channels (removeSub_isSubsOp i)]
        · next hch2 =>
          rw [hch2] at hsend
          simp at hsend
      · simp only []
        split
        · next ch2 hch2 =>
          rw [addRun_runLog, chanSend_runLog, setEffPS_runLog,
            foldl_subsop_runLog (addSub_isSubsOp i), foldl_subsop_runLog (removeSub_isSubsOp i)]
        · next hch2 =>
          rw [addRun_runLog, setEffPS_runLog,
            foldl_subsop_runLog (addSub_isSubsOp i), foldl_subsop_runLog (removeSub_isSubsOp i)]
      · rfl
      · simp only []
        split
        · next ch2 hch2 =>
          refine ⟨{ ef2 with
              prev := some (evalComp (ef2.sources.foldl (removeSub i) rt) (ef2.body ef2.prev)).1,
              sources := (evalComp (ef2.sources.foldl (removeSub i) rt) (ef2.body ef2.prev)).2 },
            ?_, rfl, rfl, rfl⟩
          exact (addRun_payload _ _ i).trans
            ((chanSend_payload _ _ _ i).trans (setEffPS_payload_self _ _ hp2))
        · next hch2 =>
          refine ⟨{ ef2 with
              prev := some (evalComp (ef2.sources.foldl (removeSub i) rt) (ef2.body ef2.prev)).1,
              sources := (evalComp (ef2.sources.foldl (removeSub i) rt) (ef2.body ef2.prev)).2 },
            ?_, rfl, rfl, rfl⟩
          exact (addRun_payload _ _ i).trans (setEffPS_payload_self _ _ hp2)
    · next h1 h2 =>
      exact absurd hp (h2 ef)
  · next hl =>
    exact absurd hlive hl

/-- Witness for C9 on the concrete runtime `rtE` with a closed channel. -/
theorem effect_send_discarded_witness :
    (runNode rtE 1).1.channels = rtE.channels ∧
    (runNode rtE 1).1.runLog = rtE.runLog ++ [1] := by
  have h := effect_send_discarded Nat rtE 1
    { body := fun _ => Comp.read 0 Comp.ret, prev := some 3, sources := [0],
      sendTo := some 0 } 0 rfl rfl rfl rfl
  exact ⟨h.1, h.2.1⟩

/-- C1: a recomputation that yields a value equal (by the decidable
equality) to the cached one does not notify the memo's subscribers and
keeps the stored value; one that yields a different value stores the new
value and notifies exactly the memo's subscribers; consequently a node
subscribed only to such an equal-valued memo never reruns in a
propagation pass started by a write to another node. -/
theorem memo_change_suppression (V : Type) [Inhabited V] [DecidableEq V] :
    (∀ (rt : Runtime V) (i : NodeId) (m : MemoNode V),
      nodeLive rt i = true → nodePayload rt i = some (.memo m) →
      m.value = some (evalComp (m.sources.foldl (removeSub i) rt) (m.compute m.value)).1 →
      (runNode rt i).2 = [] ∧ memoStored (runNode rt i).1 i = some m.value) ∧
    (∀ (rt : Runtime V) (i : NodeId) (m : MemoNode V),
      nodeLive rt i = true → nodePayload rt i = some (.memo m) →
      m.value ≠ some (evalComp (m.sources.foldl (removeSub i) rt) (m.compute m.value)).1 →
      (∀ x, x ≠ i → (x ∈ (runNode rt i).2 ↔ x ∈ subsOf rt i)) ∧
      memoStored (runNode rt i).1 i =
        some (some (evalComp (m.sources.foldl (removeSub i) rt) (m.compute m.value)).1)) ∧
    (∀ (rt : Runtime V) (s : NodeId) (v : V) (x M : NodeId)
        (f : Option V → Comp V) (c : V),
      memoCV rt M f c → subsOnlyOf rt x M →
      (∀ rt' : Runtime V, (evalComp rt' (f (some c))).1 = c) →
      s ≠ M → x ∉ rt.runLog →
      x ∉ (writeSignal rt s v).runLog) := by
  refine ⟨?_, ?_, ?_⟩
  · intro rt i m hlive hp hcond
    unfold runNode
    split
    · split
      · next m2 heq =>
        have hm : m2 = m := by
          have h1 : some (Node.memo m) = some (Node.memo m2) := hp.symm.trans heq
          have h2 := Option.some.inj h1
          cases h2
          rfl
        subst hm
        have hp2 : nodePayload
            ((evalComp (m2.sources.foldl (removeSub i) rt) (m2.compute m2.value)).2.foldl
              (addSub i) (m2.sources.foldl (removeSub i) rt)) i = some (.memo m2) := by
          rw [foldl_subsop_payload (addSub_isSubsOp i) i,
            foldl_subsop_payload (removeSub_isSubsOp i) i]
          exact heq
        constructor
        · simp only []
          rw [if_pos hcond]
        · simp only []
          rw [if_pos hcond]
          rw [memoStored_of_payload ((addRun_payload _ _ i).trans
            (setMemoVS_payload_self _ _ hp2))]
      · next ef heq =>
        rw [hp] at heq
        simp at heq
      · next h1 h2 =>
        exact absurd hp (h1 m)
    · next hl =>
      exact absurd hlive hl
  · intro rt i m hlive hp hcond
    unfold runNode
    split
    · split
      · next m2 heq =>
        have hm : m2 = m := by
          have h1 : some (Node.memo m) = some (Node.memo m2) := hp.symm.trans heq
          have h2 := Option.some.inj h1
          cases h2
          rfl
        subst hm
        have hp2 : nodePayload
            ((evalComp (m2.sources.foldl (removeSub i) rt) (m2.compute m2.value)).2.foldl
              (addSub i) (m2.sources.foldl (removeSub i) rt)) i = some (.memo m2) := by
          rw [foldl_subsop_payload (addSub_isSubsOp i) i,
            foldl_subsop_payload (removeSub_isSubsOp i) i]
          exact heq
        constructor
        · intro x hx
          simp only []
          rw [if_neg hcond]
          constructor
          · intro hmem
            exact foldl_subs_mem (fun rt s hh => mem_subsOf_removeSub hh) _ _
              (foldl_subs_mem (fun rt s hh => mem_subsOf_addSub hx hh) _ _ hmem)
          · intro hmem
            exact foldl_subs_mem_rev (fun rt s hh => mem_subsOf_addSub_rev hh) _ _
              (foldl_subs_mem_rev (fun rt s hh => mem_subsOf_removeSub_rev hx hh) _ _ hmem)
        · simp only []
          rw [if_neg hcond]
          rw [memoStored_of_payload ((addRun_payload _ _ i).trans
            (setMemoVS_payload_self _ _ hp2))]
      · next ef heq =>
        rw [hp] at heq
        simp at heq
      · next h1 h2 =>
        exact absurd hp (h1 m)
    · next hl =>
      exact absurd hlive hl
  · intro rt s v x M f c hcv hso hf hsM hx
    rw [writeSignal_eq]
    split
    · apply drain_suppressed x M f c hf
      · obtain ⟨m, hp, hcomp, hval⟩ := hcv
        refine ⟨m, ?_, hcomp, hval⟩
        rw [setSignalValue_payload_ne v (Ne.symm hsM)]
        exact hp
      · intro n hn
        rw [setSignalValue_subsOf] at hn
        exact hso n hn
      · intro hn
        rw [setSignalValue_subsOf] at hn
        exact hsM (hso s hn)
      · rw [setSignalValue_runLog]
        exact hx
    · exact hx

/-- Witness for C1 at the concrete runtimes: equal recomputation on
`rtA` notifies nobody, unequal recomputation on `rtB` replaces the
value, and effect 2 (subscribed only to memo 1) never reruns under a
write to signal 0 of `rtA`. -/
theorem memo_change_suppression_witness :
    (runNode rtA 1).2 = [] ∧
    memoStored (runNode rtB 1).1 1 = some (some 5) ∧
    2 ∉ (writeSignal rtA 0 9).runLog := by
  refine ⟨?_, ?_, ?_⟩
  · exact ((memo_change_suppression Nat).1 rtA 1
      { compute := fun _ => Comp.ret 5, value := some 5, sources := [0] } rfl rfl rfl).1
  · exact ((memo_change_suppression Nat).2.1 rtB 1
      { compute := fun _ => Comp.ret 5, value := some 4, sources := [0] } rfl rfl
      (by decide)).2
  · exact (memo_change_suppression Nat).2.2 rtA 0 9 2 1 (fun _ => Comp.ret 5) 5
      ⟨{ compute := fun _ => Comp.ret 5, value := some 5, sources := [0] }, rfl, rfl, rfl⟩
      (subsOnlyOf_of_bounded (by decide))
      (fun rt' => rfl)
      (by decide)
      (by decide)

/-- C6: the untracked readers return the same value as the tracked ones;
a computation that only reads `s` untracked produces no source edge from
`s` and no subscriber edge to `s` when installed as a memo; and a node
that subscribes to nothing is never rerun by any signal write. -/
theorem memo_untracked_isolation (V : Type) [Inhabited V] [DecidableEq V] :
    (∀ (rt : Runtime V) (m : Memo V), Memo.getUntracked rt m = Memo.get rt m) ∧
    (∀ (rt : Runtime V) (m : Memo V) (O : Type) (g : V → O),
      Memo.withUntrackedFn rt m g = Memo.withFn rt m g) ∧
    (∀ (rt : Runtime V) (sc : ScopeId) (f : Option V → Comp V) (s : NodeId),
      (∀ prev, neverTracks s (f prev)) →
      (∀ j, j ∈ subsOf rt s → j < rt.nodes.length) →
      s ∉ memoSourcesOf (createMemo rt sc f).1 (createMemo rt sc f).2.id ∧
      (createMemo rt sc f).2.id ∉ subsOf (createMemo rt sc f).1 s) ∧
    (∀ (rt : Runtime V) (s : NodeId) (v : V) (M : NodeId),
      (∀ n, M ∉ subsOf rt n) → M ∉ rt.runLog →
      M ∉ (writeSignal rt s v).runLog) := by
  refine ⟨?_, ?_, ?_, ?_⟩
  · intro rt m
    rfl
  · intro rt m O g
    rfl
  · intro rt sc f s hnt hwf
    have hs : s ∉ (evalComp rt (f none)).2 := neverTracks_reads s (f none) (hnt none) rt
    constructor
    · rw [createMemo_id]
      unfold memoSourcesOf
      rw [createMemo_payload]
      exact hs
    · rw [createMemo_id]
      simp only [createMemo]
      rw [foldl_addSub_subsOf_notmem _ _ hs]
      by_cases h1 : s < rt.nodes.length
      · rw [subsOf_append_lt rt _ _ h1]
        intro hmem
        exact absurd (hwf _ hmem) (lt_irrefl _)
      · rcases eq_or_ne s rt.nodes.length with rfl | h2
        · rw [subsOf_append_self]
          simp
        · rw [subsOf_append_gt rt _ _
            (Nat.lt_of_le_of_ne (Nat.le_of_not_lt h1) (Ne.symm h2))]
          simp
  · intro rt s v M hns hnr
    rw [writeSignal_eq]
    split
    · apply drain_unsubscribed M
      · intro n hn
        rw [setSignalValue_subsOf] at hn
        exact hns n hn
      · intro hn
        rw [setSignalValue_subsOf] at hn
        exact hns s hn
      · rw [setSignalValue_runLog]
        exact hnr
    · exact hnr

/-- Witness for C6: untracked read agrees on `rtA`; an installed memo
that reads signal 0 only untracked has no edge with it; node 5, which
subscribes to nothing, never runs. -/
theorem memo_untracked_isolation_witness :
    Memo.getUntracked rtA ⟨1⟩ = Memo.get rtA ⟨1⟩ ∧
    (0 ∉ memoSourcesOf (createMemo rtA 0 (fun _ => Comp.readUntracked 0 Comp.ret)).1
        (createMemo rtA 0 (fun _ => Comp.readUntracked 0 Comp.ret)).2.id ∧
      (createMemo rtA 0 (fun _ => Comp.readUntracked 0 Comp.ret)).2.id ∉
        subsOf (createMemo rtA 0 (fun _ => Comp.readUntracked 0 Comp.ret)).1 0) ∧
    5 ∉ (writeSignal rtA 0 9).runLog := by
  refine ⟨(memo_untracked_isolation Nat).1 rtA ⟨1⟩, ?_, ?_⟩
  · refine (memo_untracked_isolation Nat).2.2.1 rtA 0 _ 0 (fun prev v => trivial) ?_
    intro j hj
    rw [show subsOf rtA 0 = [1] from rfl] at hj
    simp at hj
    subst hj
    decide
  · exact (memo_untracked_isolation Nat).2.2.2 rtA 0 9 5
      (noSubOf_of_bounded (by decide)) (by decide)

/-- C8: disposing a live childless scope runs its cleanup callbacks
exactly once in reverse registration order, closes every channel its
cleanups name, is idempotent, leaves closed channels for ever untouched
by later writes (the stream emits nothing more), and makes `try_get`
absent for every node the scope owns. -/
theorem dispose_scope (V : Type) [Inhabited V] [DecidableEq V] (rt : Runtime V)
    (sc : ScopeId) (s0 : ScopeEntry) (hs : rt.scopes[sc]? = some s0)
    (hnd : s0.disposed = false) (hch : s0.children = []) :
    (dispose rt sc).cleanupLog = rt.cleanupLog ++ marksOf s0.cleanups.reverse ∧
    (∀ ch, CleanupAct.closeChannel ch ∈ s0.cleanups → (chanEntry rt ch).isSome = true →
      chanClosed (dispose rt sc) ch = true) ∧
    dispose (dispose rt sc) sc = dispose rt sc ∧
    (∀ (rt2 : Runtime V) (s : NodeId) (v : V) (ch : ChannelId),
      chanClosed rt2 ch = true →
      chanEntry (writeSignal rt2 s v) ch = chanEntry rt2 ch) ∧
    (∀ i, nodeOwner rt i = some sc → Memo.tryGet (dispose rt sc) ⟨i⟩ = none) := by
  have hD := dispose_childless_eq hs hnd hch
  have hsc_lt : sc < rt.scopes.length := (List.getElem?_eq_some.mp hs).1
  have hset : ((s0.cleanups.reverse.foldl runCleanup rt).scopes.set sc
      { s0 with disposed := true })[sc]? = some { s0 with disposed := true } :=
    List.getElem?_set_self (by rw [foldl_runCleanup_scopes]; exact hsc_lt)
  refine ⟨?_, ?_, ?_, ?_, ?_⟩
  · rw [hD]
    show (s0.cleanups.reverse.foldl runCleanup rt).cleanupLog = _
    exact foldl_runCleanup_cleanupLog _ rt
  · intro ch hmem hsome
    rw [hD]
    show chanClosed (s0.cleanups.reverse.foldl runCleanup rt) ch = true
    exact foldl_runCleanup_closes _ rt ch hsome (List.mem_reverse.mpr hmem)
  · rw [hD]
    exact dispose_of_disposed hset rfl
  · intro rt2 s v ch hcl
    rw [writeSignal_eq]
    split
    · have h1 : chanClosed (setSignalValue rt2 s v) ch = true := by
        rw [chanClosed_eq_entry, chanEntry_congr (setSignalValue_channels rt2 s v) ch,
          ← chanClosed_eq_entry]
        exact hcl
      rw [drain_chanEntry_closed _ _ _ _ h1,
        chanEntry_congr (setSignalValue_channels rt2 s v) ch]
    · rfl
  · intro i hown
    have hlive : nodeLive (dispose rt sc) i = false := by
      unfold nodeLive
      rw [nodeOwner_congr_nodes (dispose_nodes rt sc) i, hown]
      show scopeLive (dispose rt sc) sc = false
      rw [hD]
      unfold scopeLive
      show (match ((s0.cleanups.reverse.foldl runCleanup rt).scopes.set sc
          { s0 with disposed := true })[sc]? with
        | some s => !s.disposed
        | none => false) = false
      rw [hset]
      rfl
    unfold Memo.tryGet Memo.rawRead
    rw [hlive]
    simp

/-- Witness for C8 on the concrete runtime `rtC`. -/
theorem dispose_scope_witness :
    (dispose rtC 0).cleanupLog = rtC.cleanupLog ++
      marksOf ([CleanupAct.mark 7, CleanupAct.closeChannel 0] : List CleanupAct).reverse ∧
    chanClosed (dispose rtC 0) 0 = true ∧
    dispose (dispose rtC 0) 0 = dispose rtC 0 ∧
    Memo.tryGet (dispose rtC 0) ⟨1⟩ = none := by
  have h := dispose_scope Nat rtC 0
    { parent := none, cleanups := [CleanupAct.mark 7, CleanupAct.closeChannel 0],
      disposed := false, children := [] } rfl rfl rfl
  exact ⟨h.1, h.2.1 0 (by decide) rfl, h.2.2.1, h.2.2.2.2 1 rfl⟩

/-- C7: `to_stream` creates a fresh channel, registers a cleanup on the
scope that closes that channel, and creates an Effect owned by the scope
whose body performs a tracked `get` of the memo and pushes the value into
the channel; the initial run already pushed the current value, the effect
is subscribed to the memo, and a second call yields an independent
channel/effect pair. -/
theorem to_stream_spec (V : Type) [Inhabited V] [DecidableEq V] (rt : Runtime V)
    (m : Memo V) (sc : ScopeId) (s0 : ScopeEntry) (mn : MemoNode V) (c : V)
    (hs : rt.scopes[sc]? = some s0) (hnd : s0.disposed = false)
    (hp : nodePayload rt m.id = some (.memo mn)) (hv : mn.value = some c)
    (hwf : ∀ j, j ∈ subsOf rt m.id → j < rt.nodes.length) :
    (toStream rt m sc).2.1 = rt.channels.length ∧
    (toStream rt m sc).2.2 = rt.nodes.length ∧
    chanEntry (toStream rt m sc).1 (toStream rt m sc).2.1 =
      some { buffer := [c], closed := false } ∧
    (toStream rt m sc).2.2 ∈ subsOf (toStream rt m sc).1 m.id ∧
    nodeOwner (toStream rt m sc).1 (toStream rt m sc).2.2 = some sc ∧
    (∃ ef : EffectNode V,
      nodePayload (toStream rt m sc).1 (toStream rt m sc).2.2 = some (.eff ef) ∧
      ef.sendTo = some (toStream rt m sc).2.1 ∧ ef.prev = some c ∧
      ef.sources = [m.id]) ∧
    (toStream rt m sc).1.scopes[sc]? =
      some { s0 with cleanups := s0.cleanups ++
        [CleanupAct.closeChannel rt.channels.length] } ∧
    (toStream (toStream rt m sc).1 m sc).2.1 ≠ (toStream rt m sc).2.1 ∧
    (toStream (toStream rt m sc).1 m sc).2.2 ≠ (toStream rt m sc).2.2 := by
  have hsc_lt : sc < rt.scopes.length := (List.getElem?_eq_some.mp hs).1
  have hrt2 : onCleanup
      { rt with channels := rt.channels ++ [{ buffer := [], closed := false }] } sc
      (CleanupAct.closeChannel rt.channels.length) =
      { rt with
        channels := rt.channels ++ [{ buffer := [], closed := false }],
        scopes := rt.scopes.set sc
          { s0 with cleanups := s0.cleanups ++
              [CleanupAct.closeChannel rt.channels.length] } } :=
    onCleanup_eq _ hs hnd
  have h31 : (toStream rt m sc).1 =
      (createEffect { rt with
        channels := rt.channels ++ [{ buffer := [], closed := false }],
        scopes := rt.scopes.set sc
          { s0 with cleanups := s0.cleanups ++
              [CleanupAct.closeChannel rt.channels.length] } } sc
        (fun _ => Comp.read m.id Comp.ret) (some rt.channels.length)).1 := by
    show (createEffect (onCleanup
        { rt with channels := rt.channels ++ [{ buffer := [], closed := false }] } sc
        (CleanupAct.closeChannel rt.channels.length)) sc
        (fun _ => Comp.read m.id Comp.ret) (some rt.channels.length)).1 = _
    rw [hrt2]
  have hp2 : nodePayload
      { rt with
        channels := rt.channels ++ [{ buffer := [], closed := false }],
        scopes := rt.scopes.set sc
          { s0 with cleanups := s0.cleanups ++
              [CleanupAct.closeChannel rt.channels.length] } } m.id = some (.memo mn) := hp
  have heval : evalComp
      { rt with
        channels := rt.channels ++ [{ buffer := [], closed := false }],
        scopes := rt.scopes.set sc
          { s0 with cleanups := s0.cleanups ++
              [CleanupAct.closeChannel rt.channels.length] } } (Comp.read m.id Comp.ret) = (c, [m.id]) := by
    simp only [evalComp]
    rw [valueOf_of_memo hp2, hv]
    rfl
  refine ⟨?_, ?_, ?_, ?_, ?_, ?_, ?_, ?_, ?_⟩
  · exact toStream_chanId rt m sc
  · exact toStream_effId rt m sc
  · rw [toStream_chanId, h31]
    have hchv : ({ rt with
        channels := rt.channels ++ [{ buffer := [], closed := false }],
        scopes := rt.scopes.set sc
          { s0 with cleanups := s0.cleanups ++
              [CleanupAct.closeChannel rt.channels.length] } } : Runtime V).channels[rt.channels.length]? =
        some { buffer := [], closed := false } := by
      show (rt.channels ++ [{ buffer := [], closed := false }])[rt.channels.length]? = _
      exact List.getElem?_concat_length _ _
    have h3 := createEffect_chanEntry
      { rt with
        channels := rt.channels ++ [{ buffer := [], closed := false }],
        scopes := rt.scopes.set sc
          { s0 with cleanups := s0.cleanups ++
              [CleanupAct.closeChannel rt.channels.length] } } sc (fun _ => Comp.read m.id Comp.ret)
      rt.channels.length _ hchv rfl
    simp only [] at h3
    rw [heval] at h3
    simpa using h3
  · rw [toStream_effId, h31]
    have hres2 : (evalComp
        { rt with
        channels := rt.channels ++ [{ buffer := [], closed := false }],
        scopes := rt.scopes.set sc
          { s0 with cleanups := s0.cleanups ++
              [CleanupAct.closeChannel rt.channels.length] } } ((fun _ : Option V => Comp.read m.id Comp.ret) none)).2 = [m.id] := by
      show (evalComp { rt with
        channels := rt.channels ++ [{ buffer := [], closed := false }],
        scopes := rt.scopes.set sc
          { s0 with cleanups := s0.cleanups ++
              [CleanupAct.closeChannel rt.channels.length] } } (Comp.read m.id Comp.ret)).2 = [m.id]
      rw [heval]
    exact createEffect_subscribes
      { rt with
        channels := rt.channels ++ [{ buffer := [], closed := false }],
        scopes := rt.scopes.set sc
          { s0 with cleanups := s0.cleanups ++
              [CleanupAct.closeChannel rt.channels.length] } } sc _ rt.channels.length m.id hres2 (by rw [hp2]; simp)
  · rw [toStream_effId, h31]
    exact (createEffect_nodes_parts
      { rt with
        channels := rt.channels ++ [{ buffer := [], closed := false }],
        scopes := rt.scopes.set sc
          { s0 with cleanups := s0.cleanups ++
              [CleanupAct.closeChannel rt.channels.length] } } sc (fun _ => Comp.read m.id Comp.ret) rt.channels.length).2.1
  · rw [toStream_effId, h31, toStream_chanId]
    have hEp := (createEffect_nodes_parts
      { rt with
        channels := rt.channels ++ [{ buffer := [], closed := false }],
        scopes := rt.scopes.set sc
          { s0 with cleanups := s0.cleanups ++
              [CleanupAct.closeChannel rt.channels.length] } } sc (fun _ => Comp.read m.id Comp.ret) rt.channels.length).1
    simp only [] at hEp
    rw [heval] at hEp
    simp only [] at hEp
    exact ⟨_, hEp, rfl, rfl, rfl⟩
  · rw [h31, (createEffect_nodes_parts
      { rt with
        channels := rt.channels ++ [{ buffer := [], closed := false }],
        scopes := rt.scopes.set sc
          { s0 with cleanups := s0.cleanups ++
              [CleanupAct.closeChannel rt.channels.length] } } sc (fun _ => Comp.read m.id Comp.ret) rt.channels.length).2.2]
    show (rt.scopes.set sc _)[sc]? = _
    exact List.getElem?_set_self hsc_lt
  · have hclen : (toStream rt m sc).1.channels.length = rt.channels.length + 1 := by
      rw [h31, createEffect_chanLen]
      show (rt.channels ++ [({ buffer := [], closed := false } : Channel V)]).length =
        rt.channels.length + 1
      simp
    intro hcontra
    rw [toStream_chanId, toStream_chanId, hclen] at hcontra
    exact Nat.succ_ne_self _ hcontra
  · have hnlen : (toStream rt m sc).1.nodes.length = rt.nodes.length + 1 := by
      rw [h31, createEffect_nodesLen]
    intro hcontra
    rw [toStream_effId, toStream_effId, hnlen] at hcontra
    exact Nat.succ_ne_self _ hcontra

/-- Witness for C7 on the concrete runtime `rtA`: the stream channel
opens with the memo's current value, and a second call is independent. -/
theorem to_stream_spec_witness :
    chanEntry (toStream rtA ⟨1⟩ 0).1 (toStream rtA ⟨1⟩ 0).2.1 =
      some { buffer := [5], closed := false } ∧
    (toStream (toStream rtA ⟨1⟩ 0).1 ⟨1⟩ 0).2.1 ≠ (toStream rtA ⟨1⟩ 0).2.1 := by
  have h := to_stream_spec Nat rtA ⟨1⟩ 0
    { parent := none, cleanups := [], disposed := false, children := [] }
    { compute := fun _ => Comp.ret 5, value := some 5, sources := [0] } 5
    rfl rfl rfl rfl
    (by intro j hj
        rw [show subsOf rtA 1 = [2] from rfl] at hj
        simp at hj
        subst hj
        decide)
  exact ⟨h.2.2.1, h.2.2.2.2.2.2.2.1⟩

end Reactive
